import Mathlib

/-!
Verification of the `printlogger` write engine (`src/printlogger/__init__.py`).

The embedding models text as `List Char` (`Str`), the filesystem as an
association list from calendar dates to file contents, and the wall clock as
explicit parameters (`today : Nat` for the date, `tsAt : Nat → Str` for the
formatted timestamps successively produced by `get_preamble`).  Fallible I/O
primitives (console write/flush, file open/close/tell/seek/truncate/write/
flush) are driven by an `Oracle` of failure flags; the control flow of the
Python `try`/`except` blocks is mirrored with an `Except` monad whose error
value carries the state at the raise point, and each `except` handler is a
`catchE`.  The open handle's file position is tracked explicitly in
`PState.filePos`: opening in append mode puts it at end-of-file, `seek` moves
it, `truncate` cuts the file at it, `tell` reads it, and a successful write
appends at the end and leaves the position at the new end-of-file (append
mode), so the position a failed truncate leaves behind is observable through
the later `tell` calls, exactly as in the source.
-/

/-- Python strings are modelled as lists of characters. -/
abbrev Str := List Char

/-- The fields of `Config` that the write engine reads.  The startup plumbing
(directory creation, retention cleanup, timezone, format strings) is external
to the engine: the filename-from-date function is modelled by keying files
directly by their date, and `strftime` output by the `tsAt` parameters. -/
structure Config where
  log_to_file : Bool
  log_to_console : Bool
  use_console_colors : Bool
  capture_stderr : Bool
  tag_info : Str
  tag_error : Str
  tag_warning : Str
  tag_success : Str
  tag_debug : Str
  tag_critical : Str
  colors : List (Str × Str)
  deriving Repr, DecidableEq

/-- The default color table of `Config.colors`. -/
def defaultColors : List (Str × Str) :=
  [("normal".data, "\x1b[37m".data),
   ("info".data, "\x1b[34m".data),
   ("error".data, "\x1b[31m".data),
   ("warning".data, "\x1b[33m".data),
   ("success".data, "\x1b[32m".data),
   ("debug".data, "\x1b[36m".data),
   ("critical".data, ("\x1b[41m" ++ "\x1b[37m").data),
   ("reset".data, "\x1b[0m".data)]

/-- The default `Config` values relevant to the engine. -/
def cfg0 : Config :=
  { log_to_file := true
    log_to_console := true
    use_console_colors := true
    capture_stderr := true
    tag_info := "[INFO]".data
    tag_error := "[ERROR]".data
    tag_warning := "[WARN]".data
    tag_success := "[SUCCESS]".data
    tag_debug := "[DEBUG]".data
    tag_critical := "[CRIT]".data
    colors := defaultColors }

/-- Models `self.config.colors.get(key, "")`. -/
def Config.getColor (cfg : Config) (key : Str) : Str :=
  (cfg.colors.lookup key).getD []

/-- The mutable state of a `Print` instance, together with the observable
sinks: `files` is the filesystem (file contents keyed by the date the file
was opened for), `logOpen` is the date of the open handle (`none` when
`_log_file is None`), `filePos` is the open handle's current file position
(end-of-file right after an append-mode open and after every successful
write, moved by `seek`), and `console` / `override` accumulate the bytes
written to `sys.stdout` resp. to a caller-supplied stream. -/
structure PState where
  files : List (Nat × Str)
  currentDate : Nat
  logOpen : Option Nat
  freshLine : Bool
  lastEntryPos : Nat
  filePos : Nat
  console : Str
  override : Str
  deriving Repr, DecidableEq

/-- Content of the file for date `d` (empty if never written). -/
def getFile (fs : List (Nat × Str)) (d : Nat) : Str :=
  (fs.lookup d).getD []

/-- Replaces (or inserts) the content of the file for date `d`. -/
def setFile : List (Nat × Str) → Nat → Str → List (Nat × Str)
  | [], d, c => [(d, c)]
  | (e, c0) :: rest, d, c =>
    if e = d then (d, c) :: rest else (e, c0) :: setFile rest d c

/-- Failure injection for the fallible I/O primitives, one flag per call
site kind, plus the `seekable()` answer of the open file object. -/
structure Oracle where
  seekable : Bool
  consoleFails : Bool
  consoleFlushFails : Bool
  closeFails : Bool
  openFails : Bool
  tellFails : Bool
  seekFails : Bool
  truncateFails : Bool
  writeFails : Bool
  flushFails : Bool
  deriving Repr, DecidableEq

/-- The oracle under which every primitive succeeds and the file is
seekable. -/
def happy : Oracle :=
  { seekable := true
    consoleFails := false
    consoleFlushFails := false
    closeFails := false
    openFails := false
    tellFails := false
    seekFails := false
    truncateFails := false
    writeFails := false
    flushFails := false }

/-- A fallible primitive: on failure it raises, carrying the state at the
raise point; on success it applies `f` to the state. -/
def opE (fails : Bool) (f : PState → PState) (s : PState) : Except PState PState :=
  if fails then .error s else .ok (f s)

/-- Models a Python `try`/`except` block: a raise inside `x` is caught and
the handler `h` runs on the state at the raise point. -/
def catchE {α : Type} (x : Except PState α) (h : PState → α) : Except PState α :=
  match x with
  | .ok a => .ok a
  | .error s => .ok (h s)

/-- Embeds `Print._rotate_log`.  `today` is `datetime.now(tz).date()` at the
start of the call.  Close errors are swallowed; the `open`/`tell` block is
guarded by one `except OSError` handler that sets the handle to `None`. -/
def rotateLogE (o : Oracle) (today : Nat) (force : Bool) (s : PState) :
    Except PState PState :=
  if force = true ∨ today ≠ s.currentDate ∨ s.logOpen = none then
    let s1 : PState := { s with currentDate := today }
    match catchE (if s1.logOpen.isSome then opE o.closeFails id s1 else .ok s1) id with
    | .error e => .error e
    | .ok s2 =>
      catchE
        (match opE o.openFails
            (fun t => { t with logOpen := some today,
                               filePos := (getFile t.files today).length }) s2 with
         | .error e => .error e
         | .ok s3 =>
           opE o.tellFails (fun t => { t with lastEntryPos := t.filePos }) s3)
        (fun t => { t with logOpen := none })
  else .ok s

/-- Embeds the `try: seek; truncate; lstrip; fresh_line = True` block of
`Print._write_to_file` (the file for date `d` is the open one): the seek
moves the handle position to the stored last-entry offset, and the truncate
cuts the file at the current position; a raise after the seek leaves the
moved position behind. -/
def overwriteE (o : Oracle) (d : Nat) (text : Str) (s : PState) :
    Except PState (PState × Str) :=
  match opE o.seekFails (fun t => { t with filePos := t.lastEntryPos }) s with
  | .error e => .error e
  | .ok s1 =>
    match opE o.truncateFails
        (fun t => { t with files := setFile t.files d ((getFile t.files d).take t.filePos) }) s1 with
    | .error e => .error e
    | .ok s2 =>
      .ok ({ s2 with freshLine := true }, text.dropWhile (fun c => c = '\r'))

/-- The preamble injected at the start of every fresh log line,
`"[" + ts + "] " + tag + " "`. -/
def preamble (ts tag : Str) : Str :=
  '[' :: ts ++ ']' :: ' ' :: tag ++ [' ']

/-- Splits a text on every newline, like Python `text.split` on a newline
separator (so a trailing newline yields a final empty segment). -/
def splitNL : Str → List Str
  | [] => [[]]
  | c :: rest =>
    if c = '\n' then [] :: splitNL rest
    else
      match splitNL rest with
      | [] => [[c]]
      | p :: ps => (c :: p) :: ps

/-- Embeds the `for i, part in enumerate(parts)` loop of
`Print._write_to_file`.  `tellPos` is the handle position `tell` reports,
constant throughout the loop because the single buffer write only happens
after it; the `tell` call of each iteration sits in its own
`try`/`except OSError: pass`.  Returns the accumulated buffer together with
the final fresh-line flag and last-entry offset. -/
def buildBuffer (o : Oracle) (tsAt : Nat → Str) (tag : Str) (tellPos : Nat)
    (hasT : Bool) (count : Nat) :
    Nat → List Str → Bool → Nat → Str → Str × Bool × Nat
  | _, [], fresh, pos, buf => (buf, fresh, pos)
  | i, part :: rest, fresh, pos, buf =>
    if i = count - 1 ∧ hasT = true ∧ part = [] then
      buildBuffer o tsAt tag tellPos hasT count (i + 1) rest fresh pos buf
    else
      let pos1 := if fresh then (if o.tellFails then pos else tellPos) else pos
      let buf1 := if fresh then buf ++ preamble (tsAt i) tag else buf
      let buf2 := buf1 ++ part
      if i = count - 1 then
        if hasT then (buf2 ++ ['\n'], true, pos1)
        else (buf2, false, pos1)
      else
        buildBuffer o tsAt tag tellPos hasT count (i + 1) rest true pos1 (buf2 ++ ['\n'])

/-- Embeds the tail of `Print._write_to_file` after the overwrite handling:
line segmentation, preamble injection, and the final single
`write`/`flush` guarded by one `except Exception: pass`.  The loop reads
`tell` as the handle's current position (no write happens during the loop,
so it is constant there); the append-mode write then appends at end-of-file
and leaves the position at the new end-of-file. -/
def appendSegments (o : Oracle) (tsAt : Nat → Str) (tag : Str) (d : Nat)
    (text : Str) (s : PState) : Except PState PState :=
  let parts := splitNL text
  let hasT : Bool := decide (text.getLast? = some '\n')
  let r := buildBuffer o tsAt tag s.filePos hasT parts.length
    0 parts s.freshLine s.lastEntryPos []
  let s1 : PState := { s with freshLine := r.2.1, lastEntryPos := r.2.2 }
  catchE
    (match opE o.writeFails
        (fun t => { t with files := setFile t.files d (getFile t.files d ++ r.1),
                           filePos := (getFile t.files d ++ r.1).length }) s1 with
     | .error e => .error e
     | .ok s2 => opE o.flushFails id s2)
    id

/-- Embeds `Print._write_to_file`. -/
def writeToFileE (o : Oracle) (tsAt : Nat → Str) (today : Nat)
    (text tag : Str) (s : PState) : Except PState PState :=
  if text = [] then .ok s
  else
    match rotateLogE o today false s with
    | .error e => .error e
    | .ok s1 =>
      match s1.logOpen with
      | none => .ok s1
      | some d =>
        if text.head? = some '\r' ∧ o.seekable = true then
          match catchE (overwriteE o d text s1) (fun t => (t, text)) with
          | .error e => .error e
          | .ok (s2, t2) => appendSegments o tsAt tag d t2 s2
        else appendSegments o tsAt tag d text s1

/-- Renders the console form of a message as `Print._generic_log` does when
colors are enabled and no override stream is given: a leading carriage
return is re-inserted before the color escape. -/
def consoleRender (cfg : Config) (colorKey : Str) (message : Str) : Str :=
  let color := cfg.getColor colorKey
  let reset := cfg.getColor "reset".data
  if message.head? = some '\r' then
    '\r' :: (color ++ message.tail ++ reset)
  else color ++ message ++ reset

/-- The console/override path of `Print._generic_log`: the body of
`if self.config.log_to_console or file:`, one `except Exception: pass`
around the stream write and the optional flush. -/
def consoleStepE (o : Oracle) (cfg : Config) (message : Str)
    (hasOverride flush : Bool) (ck : Str) (s : PState) : Except PState PState :=
  if cfg.log_to_console = true ∨ hasOverride = true then
    let outMsg :=
      if cfg.use_console_colors = true ∧ hasOverride = false then
        consoleRender cfg ck message
      else message
    catchE
      (match opE o.consoleFails
          (fun t =>
            if hasOverride then { t with override := t.override ++ outMsg }
            else { t with console := t.console ++ outMsg }) s with
       | .error e1 => .error e1
       | .ok s1 =>
         if flush then opE o.consoleFlushFails id s1 else .ok s1)
      id
  else .ok s

/-- Embeds `Print._generic_log`.  `hasOverride` models passing an explicit
`file` stream; what is written to it accumulates in `PState.override`.  The
message is formatted before the lock is taken; then come the console path
and, when file logging is on and no override stream was given, the file
path. -/
def genericLogE (o : Oracle) (cfg : Config) (tsAt : Nat → Str) (today : Nat)
    (objects : List Str) (sep e : Str) (hasOverride : Bool) (flush : Bool)
    (tag colorKey : Str) (s : PState) : Except PState PState :=
  let message := List.intercalate sep objects ++ e
  match consoleStepE o cfg message hasOverride flush colorKey s with
  | .error e1 => .error e1
  | .ok s1 =>
    if cfg.log_to_file = true ∧ hasOverride = false then
      writeToFileE o tsAt today message tag s1
    else .ok s1

/-- Runs an `Except`-level computation to its final state (all claim-level
theorems are about this total view; a separate theorem shows the `.error`
case is unreachable). -/
def runE (x : Except PState PState) : PState :=
  match x with
  | .ok s => s
  | .error s => s

/-- Total view of `Print._rotate_log`. -/
def rotateLog (o : Oracle) (today : Nat) (force : Bool) (s : PState) : PState :=
  runE (rotateLogE o today force s)

/-- Total view of `Print._write_to_file`. -/
def writeToFile (o : Oracle) (tsAt : Nat → Str) (today : Nat)
    (text tag : Str) (s : PState) : PState :=
  runE (writeToFileE o tsAt today text tag s)

/-- Total view of `Print._generic_log`. -/
def genericLog (o : Oracle) (cfg : Config) (tsAt : Nat → Str) (today : Nat)
    (objects : List Str) (sep e : Str) (hasOverride : Bool) (flush : Bool)
    (tag colorKey : Str) (s : PState) : PState :=
  runE (genericLogE o cfg tsAt today objects sep e hasOverride flush tag colorKey s)

/-- Embeds `Print.__call__` (tag `tag_info`, color key `normal`; the source
default for `flush` is `False`). -/
def Print.call (o : Oracle) (cfg : Config) (tsAt : Nat → Str) (today : Nat)
    (objects : List Str) (sep e : Str) (hasOverride : Bool) (flush : Bool)
    (s : PState) : PState :=
  genericLog o cfg tsAt today objects sep e hasOverride flush cfg.tag_info "normal".data s

/-- Embeds `Print.info` (tag `tag_info`, color key `info`). -/
def Print.info (o : Oracle) (cfg : Config) (tsAt : Nat → Str) (today : Nat)
    (objects : List Str) (sep e : Str) (hasOverride : Bool) (flush : Bool)
    (s : PState) : PState :=
  genericLog o cfg tsAt today objects sep e hasOverride flush cfg.tag_info "info".data s

/-- Embeds `Print.error` (tag `tag_error`, color key `error`; the source
default for `flush` is `True`). -/
def Print.error (o : Oracle) (cfg : Config) (tsAt : Nat → Str) (today : Nat)
    (objects : List Str) (sep e : Str) (hasOverride : Bool) (flush : Bool)
    (s : PState) : PState :=
  genericLog o cfg tsAt today objects sep e hasOverride flush cfg.tag_error "error".data s

/-- Embeds `Print.warning`. -/
def Print.warning (o : Oracle) (cfg : Config) (tsAt : Nat → Str) (today : Nat)
    (objects : List Str) (sep e : Str) (hasOverride : Bool) (flush : Bool)
    (s : PState) : PState :=
  genericLog o cfg tsAt today objects sep e hasOverride flush cfg.tag_warning "warning".data s

/-- Embeds `Print.success`. -/
def Print.success (o : Oracle) (cfg : Config) (tsAt : Nat → Str) (today : Nat)
    (objects : List Str) (sep e : Str) (hasOverride : Bool) (flush : Bool)
    (s : PState) : PState :=
  genericLog o cfg tsAt today objects sep e hasOverride flush cfg.tag_success "success".data s

/-- Embeds `Print.debug`. -/
def Print.debug (o : Oracle) (cfg : Config) (tsAt : Nat → Str) (today : Nat)
    (objects : List Str) (sep e : Str) (hasOverride : Bool) (flush : Bool)
    (s : PState) : PState :=
  genericLog o cfg tsAt today objects sep e hasOverride flush cfg.tag_debug "debug".data s

/-- Embeds `Print.critical` (the source default for `flush` is `True`). -/
def Print.critical (o : Oracle) (cfg : Config) (tsAt : Nat → Str) (today : Nat)
    (objects : List Str) (sep e : Str) (hasOverride : Bool) (flush : Bool)
    (s : PState) : PState :=
  genericLog o cfg tsAt today objects sep e hasOverride flush cfg.tag_critical "critical".data s

/-- Splits off the first newline-terminated line of a buffer, like Python
`buffer.split` with a maxsplit of one when a newline is known to occur:
returns the line (without its newline) and the remainder. -/
def splitFirstNL : Str → Option (Str × Str)
  | [] => none
  | c :: rest =>
    if c = '\n' then some ([], rest)
    else (splitFirstNL rest).map (fun p => (c :: p.1, p.2))

theorem splitFirstNL_length {l a b} (h : splitFirstNL l = some (a, b)) :
    b.length < l.length := by
  induction l generalizing a b with
  | nil => simp [splitFirstNL] at h
  | cons c rest ih =>
    by_cases hc : c = '\n'
    · simp [splitFirstNL, hc] at h
      simp [← h.2]
    · simp only [splitFirstNL, if_neg hc, Option.map_eq_some'] at h
      obtain ⟨p, hp, he⟩ := h
      obtain ⟨he1, he2⟩ := Prod.mk.injEq .. ▸ he
      have := ih (a := p.1) (b := p.2) (by simpa using hp)
      simp only [List.length_cons, ← he2]
      omega

/-- The state of `_StderrInterceptor`: the pending unterminated buffer and
the bytes forwarded to the original error stream. -/
structure StderrState where
  buffer : Str
  orig : Str
  deriving Repr, DecidableEq

/-- Embeds the `while` loop of `_StderrInterceptor.write`: while the buffer
holds a newline, the first complete line (with its newline re-appended) is
forwarded, under the lock, to `_write_to_file` with the error tag, provided
file logging is enabled.  `k` numbers the drained lines so that each
`_write_to_file` call reads its own timestamps. -/
def drainLines (o : Oracle) (cfg : Config) (tsAt : Nat → Str) (today : Nat)
    (k : Nat) (buf : Str) (s : PState) : Str × PState :=
  match h : splitFirstNL buf with
  | none => (buf, s)
  | some (line, rest) =>
    let s1 :=
      if cfg.log_to_file = true then
        writeToFile o (fun i => tsAt (k + i)) today (line ++ ['\n']) cfg.tag_error s
      else s
    drainLines o cfg tsAt today (k + 1) rest s1
termination_by buf.length
decreasing_by exact splitFirstNL_length h

/-- Embeds `_StderrInterceptor.write`: the message is first forwarded
unmodified to the original error stream, then buffered and drained. -/
def stderrWrite (o : Oracle) (cfg : Config) (tsAt : Nat → Str) (today : Nat)
    (message : Str) (st : StderrState) (s : PState) : StderrState × PState :=
  let st1 : StderrState := { st with orig := st.orig ++ message, buffer := st.buffer ++ message }
  let r := drainLines o cfg tsAt today 0 st1.buffer s
  ({ st1 with buffer := r.1 }, r.2)

/-- Embeds `_StderrInterceptor.flush`: the original stream is flushed (no
observable effect here) and any pending partial content is forwarded as-is,
under the lock, then the buffer is cleared. -/
def stderrFlush (o : Oracle) (cfg : Config) (tsAt : Nat → Str) (today : Nat)
    (st : StderrState) (s : PState) : StderrState × PState :=
  if st.buffer ≠ [] then
    let s1 :=
      if cfg.log_to_file = true then
        writeToFile o tsAt today st.buffer cfg.tag_error s
      else s
    ({ st with buffer := [] }, s1)
  else (st, s)

theorem catchE_eq_ok {α : Type} (x : Except PState α) (h : PState → α) :
    ∃ a, catchE x h = .ok a := by
  cases x <;> exact ⟨_, rfl⟩

theorem getFile_setFile_self (fs : List (Nat × Str)) (d : Nat) (c : Str) :
    getFile (setFile fs d c) d = c := by
  induction fs with
  | nil => simp [setFile, getFile]
  | cons p rest ih =>
    obtain ⟨e, c0⟩ := p
    by_cases he : e = d
    · simp [setFile, he, getFile]
    · simpa [setFile, he, getFile, List.lookup, (by simpa using Ne.symm he : (d == e) = false)] using ih

theorem splitNL_no_nl {t : Str} (h : '\n' ∉ t) : splitNL t = [t] := by
  induction t with
  | nil => rfl
  | cons c rest ih =>
    have hc : ¬ c = '\n' := by rintro rfl; exact h (List.mem_cons_self _ _)
    have hrest : '\n' ∉ rest := fun hm => h (List.mem_cons_of_mem _ hm)
    simp [splitNL, hc, ih hrest]

theorem splitNL_append_nl {b : Str} (h : '\n' ∉ b) : splitNL (b ++ ['\n']) = [b, []] := by
  induction b with
  | nil => rfl
  | cons c rest ih =>
    have hc : ¬ c = '\n' := by rintro rfl; exact h (List.mem_cons_self _ _)
    have hrest : '\n' ∉ rest := fun hm => h (List.mem_cons_of_mem _ hm)
    simp [splitNL, hc, ih hrest]

theorem getLast?_mem_self {l : Str} {c : Char} (h : l.getLast? = some c) : c ∈ l := by
  have hm : c ∈ l.getLast? := by simp [h]
  obtain ⟨hne, rfl⟩ := List.mem_getLast?_eq_getLast hm
  exact List.getLast_mem hne

theorem getLast?_no_nl {t : Str} (h : '\n' ∉ t) : ¬ (t.getLast? = some '\n') :=
  fun hc => h (getLast?_mem_self hc)

theorem dropWhile_head_no {p : Char → Bool} {l : Str} {c : Char}
    (h : (l.dropWhile p).head? = some c) : p c = false := by
  induction l with
  | nil => simp [List.dropWhile] at h
  | cons a rest ih =>
    by_cases hp : p a
    · exact ih (by simpa [List.dropWhile, hp] using h)
    · simp only [List.dropWhile, hp, List.head?_cons, Option.some.injEq] at h
      simpa [← h] using hp

theorem rotateLogE_noop {o : Oracle} {today : Nat} {s : PState} {d : Nat}
    (hdate : today = s.currentDate) (hopen : s.logOpen = some d) :
    rotateLogE o today false s = .ok s := by
  unfold rotateLogE
  rw [if_neg (by simp [hdate, hopen])]

theorem appendSegments_fresh_nl {o : Oracle} {tsAt : Nat → Str} {tag : Str} {d : Nat}
    {body : Str} {s : PState}
    (hT : o.tellFails = false) (hW : o.writeFails = false)
    (hnl : '\n' ∉ body) (hfresh : s.freshLine = true) :
    appendSegments o tsAt tag d (body ++ ['\n']) s =
      .ok { s with
            files := setFile s.files d
              (getFile s.files d ++ (preamble (tsAt 0) tag ++ (body ++ ['\n']))),
            freshLine := true,
            lastEntryPos := s.filePos,
            filePos := (getFile s.files d ++ (preamble (tsAt 0) tag ++ (body ++ ['\n']))).length } := by
  unfold appendSegments
  rw [splitNL_append_nl hnl]
  cases hF : o.flushFails <;>
    simp [buildBuffer, opE, catchE, hT, hW, hF, hfresh, List.append_assoc]

theorem appendSegments_fresh_nonl {o : Oracle} {tsAt : Nat → Str} {tag : Str} {d : Nat}
    {t : Str} {s : PState}
    (hT : o.tellFails = false) (hW : o.writeFails = false)
    (hnl : '\n' ∉ t) (hfresh : s.freshLine = true) :
    appendSegments o tsAt tag d t s =
      .ok { s with
            files := setFile s.files d (getFile s.files d ++ (preamble (tsAt 0) tag ++ t)),
            freshLine := false,
            lastEntryPos := s.filePos,
            filePos := (getFile s.files d ++ (preamble (tsAt 0) tag ++ t)).length } := by
  unfold appendSegments
  rw [splitNL_no_nl hnl]
  have hlast : ¬ (t.getLast? = some '\n') := getLast?_no_nl hnl
  cases hF : o.flushFails <;>
    simp [buildBuffer, opE, catchE, hT, hW, hF, hfresh, hlast, List.append_assoc]

theorem appendSegments_cont_nl {o : Oracle} {tsAt : Nat → Str} {tag : Str} {d : Nat}
    {body : Str} {s : PState}
    (hW : o.writeFails = false)
    (hnl : '\n' ∉ body) (hfresh : s.freshLine = false) :
    appendSegments o tsAt tag d (body ++ ['\n']) s =
      .ok { s with
            files := setFile s.files d (getFile s.files d ++ (body ++ ['\n'])),
            freshLine := true,
            filePos := (getFile s.files d ++ (body ++ ['\n'])).length } := by
  unfold appendSegments
  rw [splitNL_append_nl hnl]
  cases hF : o.flushFails <;>
    simp [buildBuffer, opE, catchE, hW, hF, hfresh, List.append_assoc]

theorem appendSegments_cont_nonl {o : Oracle} {tsAt : Nat → Str} {tag : Str} {d : Nat}
    {t : Str} {s : PState}
    (hW : o.writeFails = false)
    (hnl : '\n' ∉ t) (hfresh : s.freshLine = false) :
    appendSegments o tsAt tag d t s =
      .ok { s with files := setFile s.files d (getFile s.files d ++ t),
                   filePos := (getFile s.files d ++ t).length } := by
  unfold appendSegments
  rw [splitNL_no_nl hnl]
  have hlast : ¬ (t.getLast? = some '\n') := getLast?_no_nl hnl
  cases hF : o.flushFails <;>
    simp [buildBuffer, opE, catchE, hW, hF, hfresh, hlast, List.append_assoc]

theorem writeToFileE_plain {o : Oracle} {tsAt : Nat → Str} {today : Nat} {text tag : Str}
    {s : PState} {d : Nat}
    (hdate : today = s.currentDate) (hopen : s.logOpen = some d)
    (hcr : ¬ (text.head? = some '\r' ∧ o.seekable = true))
    (hne : text ≠ []) :
    writeToFileE o tsAt today text tag s = appendSegments o tsAt tag d text s := by
  unfold writeToFileE
  rw [if_neg hne, rotateLogE_noop hdate hopen]
  simp only [hopen, if_neg hcr]

theorem writeToFile_fresh_nl {o : Oracle} {tsAt : Nat → Str} {today : Nat} {tag : Str} {d : Nat}
    {body : Str} {s : PState}
    (hdate : today = s.currentDate)
    (hopen : s.logOpen = some d) (hcr : (body ++ ['\n']).head? ≠ some '\r')
    (hT : o.tellFails = false) (hW : o.writeFails = false)
    (hnl : '\n' ∉ body) (hfresh : s.freshLine = true) :
    writeToFile o tsAt today (body ++ ['\n']) tag s =
      { s with
        files := setFile s.files d
          (getFile s.files d ++ (preamble (tsAt 0) tag ++ (body ++ ['\n']))),
        freshLine := true,
        lastEntryPos := s.filePos,
        filePos := (getFile s.files d ++ (preamble (tsAt 0) tag ++ (body ++ ['\n']))).length } := by
  unfold writeToFile
  rw [writeToFileE_plain hdate hopen (fun h => hcr h.1) (by simp),
    appendSegments_fresh_nl hT hW hnl hfresh]
  rfl

theorem writeToFile_fresh_nonl {o : Oracle} {tsAt : Nat → Str} {today : Nat} {tag : Str} {d : Nat}
    {t : Str} {s : PState}
    (hdate : today = s.currentDate)
    (hopen : s.logOpen = some d) (hcr : t.head? ≠ some '\r')
    (hT : o.tellFails = false) (hW : o.writeFails = false)
    (hnl : '\n' ∉ t) (hne : t ≠ []) (hfresh : s.freshLine = true) :
    writeToFile o tsAt today t tag s =
      { s with
        files := setFile s.files d (getFile s.files d ++ (preamble (tsAt 0) tag ++ t)),
        freshLine := false,
        lastEntryPos := s.filePos,
        filePos := (getFile s.files d ++ (preamble (tsAt 0) tag ++ t)).length } := by
  unfold writeToFile
  rw [writeToFileE_plain hdate hopen (fun h => hcr h.1) hne,
    appendSegments_fresh_nonl hT hW hnl hfresh]
  rfl

theorem writeToFile_cont_nl {o : Oracle} {tsAt : Nat → Str} {today : Nat} {tag : Str} {d : Nat}
    {body : Str} {s : PState}
    (hdate : today = s.currentDate)
    (hopen : s.logOpen = some d) (hcr : (body ++ ['\n']).head? ≠ some '\r')
    (hW : o.writeFails = false)
    (hnl : '\n' ∉ body) (hfresh : s.freshLine = false) :
    writeToFile o tsAt today (body ++ ['\n']) tag s =
      { s with
        files := setFile s.files d (getFile s.files d ++ (body ++ ['\n'])),
        freshLine := true,
        filePos := (getFile s.files d ++ (body ++ ['\n'])).length } := by
  unfold writeToFile
  rw [writeToFileE_plain hdate hopen (fun h => hcr h.1) (by simp),
    appendSegments_cont_nl hW hnl hfresh]
  rfl

theorem writeToFile_cont_nonl {o : Oracle} {tsAt : Nat → Str} {today : Nat} {tag : Str} {d : Nat}
    {t : Str} {s : PState}
    (hdate : today = s.currentDate)
    (hopen : s.logOpen = some d) (hcr : t.head? ≠ some '\r')
    (hW : o.writeFails = false)
    (hnl : '\n' ∉ t) (hne : t ≠ []) (hfresh : s.freshLine = false) :
    writeToFile o tsAt today t tag s =
      { s with files := setFile s.files d (getFile s.files d ++ t),
               filePos := (getFile s.files d ++ t).length } := by
  unfold writeToFile
  rw [writeToFileE_plain hdate hopen (fun h => hcr h.1) hne,
    appendSegments_cont_nonl hW hnl hfresh]
  rfl

theorem consoleStepE_colors {o : Oracle} {cfg : Config} {message : Str} {flush : Bool}
    {ck : Str} {s : PState}
    (hlc : cfg.log_to_console = true) (hcc : cfg.use_console_colors = true)
    (hcf : o.consoleFails = false) :
    consoleStepE o cfg message false flush ck s =
      .ok { s with console := s.console ++ consoleRender cfg ck message } := by
  unfold consoleStepE
  cases flush <;> cases hF : o.consoleFlushFails <;>
    simp [opE, catchE, hlc, hcc, hcf, hF]

theorem consoleStepE_override {o : Oracle} {cfg : Config} {message : Str} {flush : Bool}
    {ck : Str} {s : PState}
    (hcf : o.consoleFails = false) :
    consoleStepE o cfg message true flush ck s =
      .ok { s with override := s.override ++ message } := by
  unfold consoleStepE
  cases flush <;> cases hF : o.consoleFlushFails <;>
    simp [opE, catchE, hcf, hF]

theorem genericLogE_console_file {o : Oracle} {cfg : Config} {tsAt : Nat → Str} {today : Nat}
    {objects : List Str} {sep e : Str} {flush : Bool} {tag ck : Str} {s : PState}
    (hlc : cfg.log_to_console = true) (hcc : cfg.use_console_colors = true)
    (hlf : cfg.log_to_file = true) (hcf : o.consoleFails = false) :
    genericLogE o cfg tsAt today objects sep e false flush tag ck s =
      writeToFileE o tsAt today (List.intercalate sep objects ++ e) tag
        { s with console := s.console ++ consoleRender cfg ck (List.intercalate sep objects ++ e) } := by
  unfold genericLogE
  dsimp only
  rw [consoleStepE_colors hlc hcc hcf]
  simp [hlf]

theorem genericLogE_override {o : Oracle} {cfg : Config} {tsAt : Nat → Str} {today : Nat}
    {objects : List Str} {sep e : Str} {flush : Bool} {tag ck : Str} {s : PState}
    (hcf : o.consoleFails = false) :
    genericLogE o cfg tsAt today objects sep e true flush tag ck s =
      .ok { s with override := s.override ++ (List.intercalate sep objects ++ e) } := by
  unfold genericLogE
  dsimp only
  rw [consoleStepE_override hcf]
  simp

/-- Fixed concrete timestamp used by witnesses and counterexamples. -/
def tsW : Str := "12:00:00".data

/-- Fixed concrete engine state used by witnesses and counterexamples: the
file for date 0 is open and empty, and the channel is on a fresh line. -/
def sW : PState :=
  { files := [(0, [])], currentDate := 0, logOpen := some 0,
    freshLine := true, lastEntryPos := 0, filePos := 0, console := [], override := [] }

/-- Claim C1, counterexample: the claim says the console receives the error
color escape, then the TAGGED text followed by the terminator, then the reset
escape; at the concrete call error("x") with colors enabled and no override
stream the console in fact receives the untagged message, so the claimed
console content is not produced. -/
theorem C1_counterexample :
    ¬ ((Print.error happy cfg0 (fun _ => tsW) 0 ["x".data] " ".data "\n".data false true sW).console
        = "\x1b[31m".data ++ ("[ERROR] x\n".data ++ "\x1b[0m".data)) := by
  decide

/-- Claim C1 (amended): for every call error("x") with console colors enabled
and no override stream, the console receives the error color escape, then the
UNTAGGED text "x" plus the terminator, then the reset escape, while the file
receives "[HH:MM:SS] [ERROR] x" plus the terminator with no escape codes. -/
theorem C1_theorem (ts : Str) (d : Nat) (s : PState)
    (hopen : s.logOpen = some d) (hfresh : s.freshLine = true) :
    (Print.error happy cfg0 (fun _ => ts) s.currentDate ["x".data] " ".data "\n".data false true s).console
      = s.console ++ ("\x1b[31m".data ++ ("x\n".data ++ "\x1b[0m".data))
    ∧ getFile (Print.error happy cfg0 (fun _ => ts) s.currentDate ["x".data] " ".data "\n".data false true s).files d
      = getFile s.files d ++ (preamble ts "[ERROR]".data ++ "x\n".data)
    ∧ ('\x1b' ∉ ts → '\x1b' ∉ getFile s.files d →
        '\x1b' ∉ getFile (Print.error happy cfg0 (fun _ => ts) s.currentDate ["x".data] " ".data "\n".data false true s).files d) := by
  have hmsg : (List.intercalate " ".data ["x".data] ++ "\n".data) = ['x'] ++ ['\n'] := by decide
  have hrun : Print.error happy cfg0 (fun _ => ts) s.currentDate ["x".data] " ".data "\n".data false true s
      = writeToFile happy (fun _ => ts) s.currentDate (['x'] ++ ['\n']) "[ERROR]".data
          { s with console := s.console ++ consoleRender cfg0 "error".data (['x'] ++ ['\n']) } := by
    unfold Print.error genericLog writeToFile
    rw [genericLogE_console_file rfl rfl rfl rfl, hmsg]
    rfl
  rw [hrun, writeToFile_fresh_nl (d := d) (by simp) (by simp [hopen]) (by decide) rfl rfl
    (by decide) (by simp [hfresh])]
  refine ⟨by simp [consoleRender]; decide, by simp [getFile_setFile_self], ?_⟩
  intro hts hold
  simp only [getFile_setFile_self, preamble]
  simp [List.mem_append, List.mem_cons, hold, hts]

/-- Witness for C1: the amended claim instantiated at a concrete state. -/
theorem C1_witness :
    (Print.error happy cfg0 (fun _ => tsW) sW.currentDate ["x".data] " ".data "\n".data false true sW).console
      = sW.console ++ ("\x1b[31m".data ++ ("x\n".data ++ "\x1b[0m".data))
    ∧ getFile (Print.error happy cfg0 (fun _ => tsW) sW.currentDate ["x".data] " ".data "\n".data false true sW).files 0
      = getFile sW.files 0 ++ (preamble tsW "[ERROR]".data ++ "x\n".data)
    ∧ ('\x1b' ∉ tsW → '\x1b' ∉ getFile sW.files 0 →
        '\x1b' ∉ getFile (Print.error happy cfg0 (fun _ => tsW) sW.currentDate ["x".data] " ".data "\n".data false true sW).files 0) :=
  C1_theorem tsW 0 sW rfl rfl

/-- Concrete pre-rotation state for the C2 counterexample: mid-line (the
fresh-line marker is false) with the file for date 0 open. -/
def sMid : PState :=
  { files := [(0, "old".data)], currentDate := 0, logOpen := some 0,
    freshLine := false, lastEntryPos := 0, filePos := 3, console := [], override := [] }

/-- Claim C2, counterexample: at a successful date-change rotation from a
mid-line state the fresh-line marker is NOT reset to true afterwards
(`_rotate_log` never touches `_fresh_line`). -/
theorem C2_counterexample :
    ¬ ((rotateLog happy 1 false sMid).freshLine = true) := by decide

/-- Claim C2 (amended): every rotation (forced, on date change, or with no
open file) that successfully opens the new file stores the new date and the
opened handle's end-of-file offset as the last-entry offset, while the
fresh-line marker KEEPS its prior value (the source does not reset it); any
previous handle is closed with close errors ignored (the outcome does not
depend on the close failing) and no file bytes are lost. -/
theorem C2_theorem (o : Oracle) (today : Nat) (force : Bool) (s : PState)
    (htrig : force = true ∨ today ≠ s.currentDate ∨ s.logOpen = none)
    (hopen : o.openFails = false) (htell : o.tellFails = false) :
    (rotateLog o today force s).currentDate = today
    ∧ (rotateLog o today force s).logOpen = some today
    ∧ (rotateLog o today force s).lastEntryPos = (getFile s.files today).length
    ∧ (rotateLog o today force s).files = s.files
    ∧ (rotateLog o today force s).freshLine = s.freshLine
    ∧ rotateLog o today force s = rotateLog { o with closeFails := true } today force s := by
  unfold rotateLog rotateLogE
  rw [if_pos htrig, if_pos htrig]
  cases hso : s.logOpen <;> cases hc : o.closeFails <;>
    simp [opE, catchE, hopen, htell, runE, hso, hc]

/-- Witness for C2: a date-change rotation at a concrete mid-line state. -/
theorem C2_witness :
    (rotateLog happy 1 false sMid).currentDate = 1
    ∧ (rotateLog happy 1 false sMid).logOpen = some 1
    ∧ (rotateLog happy 1 false sMid).lastEntryPos = (getFile sMid.files 1).length
    ∧ (rotateLog happy 1 false sMid).files = sMid.files
    ∧ (rotateLog happy 1 false sMid).freshLine = sMid.freshLine
    ∧ rotateLog happy 1 false sMid = rotateLog { happy with closeFails := true } 1 false sMid :=
  C2_theorem happy 1 false sMid (Or.inr (Or.inl (by decide))) rfl rfl

/-- Claim C3: for every append whose text begins with the carriage-return
marker while a file is open and no rotation is due: (1) when the open file
supports seeking and seek and truncate succeed, the append equals a plain
segment-append of the marker-stripped text on the state whose file is
truncated at the stored last-entry offset, whose fresh-line marker is set,
and whose handle position sits at that offset, so the prior last entry is
replaced rather than appended after; (2) when the seek fails, the append
equals a plain segment-append of the unmodified text on the unmodified
state (no truncation); and (3) when the seek succeeds but the truncate
fails, the append equals a plain segment-append of the unmodified text with
no truncation, the only trace of the attempt being the handle position left
at the stored last-entry offset (so the loop's tell keeps the old
offset). -/
theorem C3_theorem (o : Oracle) (tsAt : Nat → Str) (d : Nat) (text tag : Str) (s : PState)
    (hopen : s.logOpen = some d) (hcr : text.head? = some '\r') :
    (o.seekable = true → o.seekFails = false → o.truncateFails = false →
      writeToFile o tsAt s.currentDate text tag s =
        runE (appendSegments o tsAt tag d (text.dropWhile (fun c => c = '\r'))
          { s with files := setFile s.files d ((getFile s.files d).take s.lastEntryPos),
                   freshLine := true, filePos := s.lastEntryPos }))
    ∧ (o.seekable = true → o.seekFails = true →
      writeToFile o tsAt s.currentDate text tag s =
        runE (appendSegments o tsAt tag d text s))
    ∧ (o.seekable = true → o.seekFails = false → o.truncateFails = true →
      writeToFile o tsAt s.currentDate text tag s =
        runE (appendSegments o tsAt tag d text { s with filePos := s.lastEntryPos })) := by
  have hne : text ≠ [] := by intro h; rw [h] at hcr; simp at hcr
  refine ⟨?_, ?_, ?_⟩
  · intro hs h1 h2
    unfold writeToFile writeToFileE
    rw [if_neg hne, rotateLogE_noop rfl hopen]
    simp only [hopen]
    rw [if_pos ⟨hcr, hs⟩]
    simp [overwriteE, opE, catchE, h1, h2, hopen]
  · intro hs h1
    unfold writeToFile writeToFileE
    rw [if_neg hne, rotateLogE_noop rfl hopen]
    simp only [hopen]
    rw [if_pos ⟨hcr, hs⟩]
    simp [overwriteE, opE, catchE, h1, hopen]
  · intro hs h1 h2
    unfold writeToFile writeToFileE
    rw [if_neg hne, rotateLogE_noop rfl hopen]
    simp only [hopen]
    rw [if_pos ⟨hcr, hs⟩]
    simp [overwriteE, opE, catchE, h1, h2, hopen]

/-- Concrete state with a previous entry in the open file; the last-entry
offset points inside the file, so the overwrite truncation and the handle
position a failed truncate leaves behind are both visible. -/
def sOvw : PState :=
  { files := [(0, "AB".data)], currentDate := 0, logOpen := some 0,
    freshLine := true, lastEntryPos := 1, filePos := 2, console := [], override := [] }

/-- Witness for C3: the successful-overwrite branch, the failed-seek
fallback and the failed-truncate fallback at concrete inputs. -/
theorem C3_witness :
    (writeToFile happy (fun _ => tsW) sOvw.currentDate "\rX\n".data "[INFO]".data sOvw =
      runE (appendSegments happy (fun _ => tsW) "[INFO]".data 0
        ("\rX\n".data.dropWhile (fun c => c = '\r'))
        { sOvw with files := setFile sOvw.files 0 ((getFile sOvw.files 0).take sOvw.lastEntryPos),
                    freshLine := true, filePos := sOvw.lastEntryPos }))
    ∧ (writeToFile { happy with seekFails := true } (fun _ => tsW) sOvw.currentDate
        "\rX\n".data "[INFO]".data sOvw =
      runE (appendSegments { happy with seekFails := true } (fun _ => tsW) "[INFO]".data 0
        "\rX\n".data sOvw))
    ∧ (writeToFile { happy with truncateFails := true } (fun _ => tsW) sOvw.currentDate
        "\rX\n".data "[INFO]".data sOvw =
      runE (appendSegments { happy with truncateFails := true } (fun _ => tsW) "[INFO]".data 0
        "\rX\n".data { sOvw with filePos := sOvw.lastEntryPos })) :=
  ⟨(C3_theorem happy (fun _ => tsW) 0 "\rX\n".data "[INFO]".data sOvw rfl rfl).1 rfl rfl rfl,
   (C3_theorem { happy with seekFails := true } (fun _ => tsW) 0 "\rX\n".data "[INFO]".data sOvw
      rfl rfl).2.1 rfl rfl,
   (C3_theorem { happy with truncateFails := true } (fun _ => tsW) 0 "\rX\n".data "[INFO]".data
      sOvw rfl rfl).2.2 rfl rfl rfl⟩

/-- Claim C4: when a first append leaves no trailing terminator, the next
append (not starting with the overwrite marker) continues the same logical
file line: after the first call the fresh-line marker is false, and the pair
produces one concatenated file line carrying exactly the first call's
preamble, the second message's first segment receiving no preamble of its
own. -/
theorem C4_theorem (o : Oracle) (tsAt1 tsAt2 : Nat → Str) (d : Nat) (tag1 tag2 : Str)
    (t1 b2 : Str) (s : PState)
    (hT : o.tellFails = false) (hW : o.writeFails = false)
    (hopen : s.logOpen = some d) (hfresh : s.freshLine = true)
    (h1nl : '\n' ∉ t1) (h1ne : t1 ≠ []) (h1cr : t1.head? ≠ some '\r')
    (h2nl : '\n' ∉ b2) (h2cr : (b2 ++ ['\n']).head? ≠ some '\r') :
    (writeToFile o tsAt1 s.currentDate t1 tag1 s).freshLine = false
    ∧ getFile (writeToFile o tsAt2 s.currentDate (b2 ++ ['\n']) tag2
        (writeToFile o tsAt1 s.currentDate t1 tag1 s)).files d
      = getFile s.files d ++ (preamble (tsAt1 0) tag1 ++ (t1 ++ (b2 ++ ['\n'])))
    ∧ (writeToFile o tsAt2 s.currentDate (b2 ++ ['\n']) tag2
        (writeToFile o tsAt1 s.currentDate t1 tag1 s)).freshLine = true := by
  rw [writeToFile_fresh_nonl rfl hopen h1cr hT hW h1nl h1ne hfresh]
  rw [writeToFile_cont_nl (d := d) (by simp) (by simp [hopen]) h2cr hW h2nl (by simp)]
  simp [getFile_setFile_self, List.append_assoc]

/-- Witness for C4: the progress-indicator pattern, writing "Loading" and
then "...Done!" with a terminator. -/
theorem C4_witness :
    (writeToFile happy (fun _ => tsW) sW.currentDate "Loading".data "[INFO]".data sW).freshLine = false
    ∧ getFile (writeToFile happy (fun _ => tsW) sW.currentDate ("...Done!".data ++ ['\n']) "[INFO]".data
        (writeToFile happy (fun _ => tsW) sW.currentDate "Loading".data "[INFO]".data sW)).files 0
      = getFile sW.files 0
        ++ (preamble tsW "[INFO]".data ++ ("Loading".data ++ ("...Done!".data ++ ['\n'])))
    ∧ (writeToFile happy (fun _ => tsW) sW.currentDate ("...Done!".data ++ ['\n']) "[INFO]".data
        (writeToFile happy (fun _ => tsW) sW.currentDate "Loading".data "[INFO]".data sW)).freshLine = true :=
  C4_theorem happy (fun _ => tsW) (fun _ => tsW) 0 "[INFO]".data "[INFO]".data
    "Loading".data "...Done!".data sW rfl rfl rfl rfl (by decide) (by decide) (by decide)
    (by decide) (by decide)

theorem drainLines_step {o : Oracle} {cfg : Config} {tsAt : Nat → Str} {today k : Nat}
    {buf : Str} {s : PState} {line rest : Str}
    (h : splitFirstNL buf = some (line, rest)) :
    drainLines o cfg tsAt today k buf s =
      drainLines o cfg tsAt today (k + 1) rest
        (if cfg.log_to_file = true then
          writeToFile o (fun i => tsAt (k + i)) today (line ++ ['\n']) cfg.tag_error s
        else s) := by
  rw [drainLines]
  split
  next heq => rw [h] at heq; exact absurd heq (by simp)
  next l r heq =>
    rw [h] at heq
    simp only [Option.some.injEq, Prod.mk.injEq] at heq
    obtain ⟨h1, h2⟩ := heq
    subst h1; subst h2
    rfl

theorem drainLines_none {o : Oracle} {cfg : Config} {tsAt : Nat → Str} {today k : Nat}
    {buf : Str} {s : PState}
    (h : splitFirstNL buf = none) :
    drainLines o cfg tsAt today k buf s = (buf, s) := by
  rw [drainLines]
  split
  next heq => rfl
  next l r heq => rw [h] at heq; exact absurd heq (by simp)

/-- Claim C5: for the error-stream capture, writing
"Traceback:\n  line1\n  line2" (no trailing newline) immediately produces
two complete error-tagged file lines for "Traceback:" and "  line1", while
"  line2" stays in the pending buffer; an explicit flush then empties the
buffer and appends "  line2" as its own error-tagged entry; and the whole
write is forwarded unmodified to the original error stream. -/
theorem C5_theorem (ts ts2 : Nat → Str) (d : Nat) (s : PState) (st : StderrState)
    (hopen : s.logOpen = some d) (hfresh : s.freshLine = true) (hbuf : st.buffer = []) :
    let w := stderrWrite happy cfg0 ts s.currentDate "Traceback:\n  line1\n  line2".data st s
    let f := stderrFlush happy cfg0 ts2 s.currentDate w.1 w.2
    w.1.orig = st.orig ++ "Traceback:\n  line1\n  line2".data
    ∧ w.1.buffer = "  line2".data
    ∧ getFile w.2.files d
      = getFile s.files d
        ++ (preamble (ts 0) "[ERROR]".data ++ ("Traceback:".data ++ ['\n']))
        ++ (preamble (ts 1) "[ERROR]".data ++ ("  line1".data ++ ['\n']))
    ∧ f.1.buffer = []
    ∧ getFile f.2.files d
      = getFile w.2.files d ++ (preamble (ts2 0) "[ERROR]".data ++ "  line2".data) := by
  have h1 : splitFirstNL "Traceback:\n  line1\n  line2".data
      = some ("Traceback:".data, "  line1\n  line2".data) := by decide
  have h2 : splitFirstNL "  line1\n  line2".data
      = some ("  line1".data, "  line2".data) := by decide
  have h3 : splitFirstNL "  line2".data = none := by decide
  dsimp only
  unfold stderrWrite
  simp only [hbuf, List.nil_append]
  rw [drainLines_step h1, if_pos (show cfg0.log_to_file = true from rfl),
    writeToFile_fresh_nl (d := d) rfl hopen (by decide) rfl rfl (by decide) hfresh]
  rw [drainLines_step h2, if_pos (show cfg0.log_to_file = true from rfl),
    writeToFile_fresh_nl (d := d) (by simp) (by simp [hopen]) (by decide) rfl rfl (by decide)
      (by simp)]
  rw [drainLines_none h3]
  dsimp only
  unfold stderrFlush
  dsimp only
  rw [if_pos (by decide), if_pos (show cfg0.log_to_file = true from rfl),
    writeToFile_fresh_nonl (d := d) (by simp) (by simp [hopen]) (by decide) rfl rfl (by decide)
      (by decide) (by simp)]
  simp [getFile_setFile_self, List.append_assoc, cfg0]

/-- Concrete empty interceptor state for the C5 witness. -/
def stW : StderrState := { buffer := [], orig := [] }

/-- Witness for C5: the traceback scenario at a concrete state. -/
theorem C5_witness :
    (let w := stderrWrite happy cfg0 (fun _ => tsW) sW.currentDate
        "Traceback:\n  line1\n  line2".data stW sW
     let f := stderrFlush happy cfg0 (fun _ => tsW) sW.currentDate w.1 w.2
     w.1.orig = stW.orig ++ "Traceback:\n  line1\n  line2".data
     ∧ w.1.buffer = "  line2".data
     ∧ getFile w.2.files 0
       = getFile sW.files 0
         ++ (preamble tsW "[ERROR]".data ++ ("Traceback:".data ++ ['\n']))
         ++ (preamble tsW "[ERROR]".data ++ ("  line1".data ++ ['\n']))
     ∧ f.1.buffer = []
     ∧ getFile f.2.files 0
       = getFile w.2.files 0 ++ (preamble tsW "[ERROR]".data ++ "  line2".data)) :=
  C5_theorem (fun _ => tsW) (fun _ => tsW) 0 sW stW rfl rfl rfl

/-- True when an `Except`-level computation did not end in an uncaught
raise. -/
def noRaise {α : Type} (x : Except PState α) : Bool :=
  match x with
  | .ok _ => true
  | .error _ => false

theorem catchE_ne_error {α : Type} (x : Except PState α) (h : PState → α) (e : PState) :
    catchE x h ≠ .error e := by
  cases x <;> simp [catchE]

theorem catchE_noRaise {α : Type} (x : Except PState α) (h : PState → α) :
    noRaise (catchE x h) = true := by
  cases x <;> rfl

theorem rotateLogE_noRaise (o : Oracle) (today : Nat) (force : Bool) (s : PState) :
    noRaise (rotateLogE o today force s) = true := by
  unfold rotateLogE
  split
  · dsimp only
    split
    next heq => exact absurd heq (catchE_ne_error _ _ _)
    next s2 heq => exact catchE_noRaise _ _
  · rfl

theorem appendSegments_noRaise (o : Oracle) (tsAt : Nat → Str) (tag : Str) (d : Nat)
    (text : Str) (s : PState) :
    noRaise (appendSegments o tsAt tag d text s) = true := by
  unfold appendSegments
  exact catchE_noRaise _ _

theorem writeToFileE_noRaise (o : Oracle) (tsAt : Nat → Str) (today : Nat)
    (text tag : Str) (s : PState) :
    noRaise (writeToFileE o tsAt today text tag s) = true := by
  unfold writeToFileE
  split
  · rfl
  · split
    next heq =>
      have hr := rotateLogE_noRaise o today false s
      rw [heq] at hr
      exact absurd hr (by simp [noRaise])
    next s1 heq =>
      split
      · rfl
      next d heq2 =>
        split
        · split
          next heq3 => exact absurd heq3 (catchE_ne_error _ _ _)
          next s2 t2 heq3 => exact appendSegments_noRaise _ _ _ _ _ _
        · exact appendSegments_noRaise _ _ _ _ _ _

theorem ne_error_of_noRaise {α : Type} {x : Except PState α} (h : noRaise x = true)
    (e : PState) : x ≠ .error e := by
  cases x <;> simp_all [noRaise]

theorem consoleStepE_noRaise (o : Oracle) (cfg : Config) (message : Str)
    (hasOverride flush : Bool) (ck : Str) (s : PState) :
    noRaise (consoleStepE o cfg message hasOverride flush ck s) = true := by
  unfold consoleStepE
  split
  · dsimp only
    exact catchE_noRaise _ _
  · rfl

/-- Claim C6: no exception arising from console writing or flushing, file
opening or rotation, file writing or flushing, or seek/truncate during
overwrite escapes a logging operation: for every failure oracle,
configuration, arguments and state, the emit pipeline ends in a normal
state, never in an uncaught raise.  The default callable and each severity
method are `_generic_log` at a fixed tag and color key, so this covers all
of them. -/
theorem C6_theorem (o : Oracle) (cfg : Config) (tsAt : Nat → Str) (today : Nat)
    (objects : List Str) (sep e : Str) (hasOverride flush : Bool) (tag ck : Str)
    (s : PState) :
    noRaise (genericLogE o cfg tsAt today objects sep e hasOverride flush tag ck s) = true := by
  unfold genericLogE
  dsimp only
  split
  next e1 heq => exact absurd heq (ne_error_of_noRaise (consoleStepE_noRaise _ _ _ _ _ _ _) _)
  next s1 heq =>
    split
    · exact writeToFileE_noRaise _ _ _ _ _ _
    · rfl

/-- Replaces only the console sink of a state. -/
def withConsole (c : Str) (s : PState) : PState := { s with console := c }

theorem withConsole_files (c : Str) (s : PState) : (withConsole c s).files = s.files := rfl

theorem withConsole_currentDate (c : Str) (s : PState) :
    (withConsole c s).currentDate = s.currentDate := rfl

theorem withConsole_logOpen (c : Str) (s : PState) :
    (withConsole c s).logOpen = s.logOpen := rfl

theorem withConsole_freshLine (c : Str) (s : PState) :
    (withConsole c s).freshLine = s.freshLine := rfl

theorem withConsole_lastEntryPos (c : Str) (s : PState) :
    (withConsole c s).lastEntryPos = s.lastEntryPos := rfl

theorem withConsole_override (c : Str) (s : PState) :
    (withConsole c s).override = s.override := rfl

theorem withConsole_console (c : Str) (s : PState) : (withConsole c s).console = c := rfl

/-- Pointwise image of an `Except`-level outcome. -/
def mapE (f : PState → PState) : Except PState PState → Except PState PState
  | .ok s => .ok (f s)
  | .error s => .error (f s)

theorem rotateLogE_withConsole (o : Oracle) (today : Nat) (force : Bool) (c : Str)
    (s : PState) :
    rotateLogE o today force (withConsole c s) = mapE (withConsole c) (rotateLogE o today force s) := by
  unfold rotateLogE
  by_cases h : force = true ∨ today ≠ s.currentDate ∨ s.logOpen = none
  · rw [if_pos (by simpa [withConsole] using h), if_pos h]
    cases hL : s.logOpen <;> cases hC : o.closeFails <;> cases hO : o.openFails <;>
      cases hT : o.tellFails <;>
        simp [withConsole, mapE, opE, catchE, hL, hC, hO, hT, getFile]
  · rw [if_neg (by simpa [withConsole] using h), if_neg h]
    simp [mapE, withConsole]

theorem appendSegments_withConsole (o : Oracle) (tsAt : Nat → Str) (tag : Str) (d : Nat)
    (text : Str) (c : Str) (s : PState) :
    appendSegments o tsAt tag d text (withConsole c s) =
      mapE (withConsole c) (appendSegments o tsAt tag d text s) := by
  unfold appendSegments
  cases hW : o.writeFails <;> cases hF : o.flushFails <;>
    simp [withConsole, mapE, opE, catchE, hW, hF, getFile]

theorem overwriteE_withConsole (o : Oracle) (d : Nat) (text : Str) (c : Str) (s : PState) :
    overwriteE o d text (withConsole c s) =
      (match overwriteE o d text s with
       | .ok (t, x) => .ok (withConsole c t, x)
       | .error t => .error (withConsole c t)) := by
  unfold overwriteE
  cases hS : o.seekFails <;> cases hT : o.truncateFails <;>
    simp [withConsole, opE, catchE, hS, hT, getFile]

theorem writeToFileE_withConsole (o : Oracle) (tsAt : Nat → Str) (today : Nat)
    (text tag : Str) (c : Str) (s : PState) :
    writeToFileE o tsAt today text tag (withConsole c s) =
      mapE (withConsole c) (writeToFileE o tsAt today text tag s) := by
  unfold writeToFileE
  by_cases hne : text = []
  · simp [hne, mapE]
  · rw [if_neg hne, if_neg hne, rotateLogE_withConsole]
    cases hR : rotateLogE o today false s with
    | error e => simp [mapE]
    | ok s1 =>
      simp only [mapE, withConsole_logOpen]
      cases hL : s1.logOpen with
      | none => simp [mapE]
      | some d =>
        dsimp only
        by_cases hcr : text.head? = some '\r' ∧ o.seekable = true
        · rw [if_pos hcr, if_pos hcr, overwriteE_withConsole]
          cases hOv : overwriteE o d text s1 with
          | error t =>
            simpa [catchE] using appendSegments_withConsole o tsAt tag d text c t
          | ok p =>
            obtain ⟨t, x⟩ := p
            simpa [catchE] using appendSegments_withConsole o tsAt tag d x c t
        · rw [if_neg hcr, if_neg hcr]
          exact appendSegments_withConsole o tsAt tag d text c s1

theorem writeToFile_withConsole (o : Oracle) (tsAt : Nat → Str) (today : Nat)
    (text tag c : Str) (s : PState) :
    writeToFile o tsAt today text tag (withConsole c s) =
      withConsole c (writeToFile o tsAt today text tag s) := by
  unfold writeToFile
  rw [writeToFileE_withConsole]
  cases writeToFileE o tsAt today text tag s <;> rfl

theorem writeToFile_console (o : Oracle) (tsAt : Nat → Str) (today : Nat)
    (text tag : Str) (s : PState) :
    (writeToFile o tsAt today text tag s).console = s.console := by
  have h := writeToFile_withConsole o tsAt today text tag s.console s
  have he : withConsole s.console s = s := rfl
  rw [he] at h
  rw [h]
  rfl

/-- Claim C7: for every emit call given an explicit override stream, the
message is written to that stream without any color escapes, and no file
write occurs: the files, the open handle, the stored date, the last-entry
offset, the fresh-line flag and the console are all unchanged by the
call. -/
theorem C7_theorem (o : Oracle) (cfg : Config) (tsAt : Nat → Str) (today : Nat)
    (objects : List Str) (sep e : Str) (flush : Bool) (tag ck : Str) (s : PState)
    (hcf : o.consoleFails = false) :
    (genericLog o cfg tsAt today objects sep e true flush tag ck s).override
      = s.override ++ (List.intercalate sep objects ++ e)
    ∧ (genericLog o cfg tsAt today objects sep e true flush tag ck s).files = s.files
    ∧ (genericLog o cfg tsAt today objects sep e true flush tag ck s).logOpen = s.logOpen
    ∧ (genericLog o cfg tsAt today objects sep e true flush tag ck s).currentDate = s.currentDate
    ∧ (genericLog o cfg tsAt today objects sep e true flush tag ck s).lastEntryPos = s.lastEntryPos
    ∧ (genericLog o cfg tsAt today objects sep e true flush tag ck s).freshLine = s.freshLine
    ∧ (genericLog o cfg tsAt today objects sep e true flush tag ck s).console = s.console := by
  unfold genericLog
  rw [genericLogE_override hcf]
  simp [runE]

/-- Witness for C7: an override-stream call at a concrete state. -/
theorem C7_witness :
    (genericLog happy cfg0 (fun _ => tsW) 0 ["hello".data] " ".data "\n".data true false
        "[INFO]".data "normal".data sW).override
      = sW.override ++ (List.intercalate " ".data ["hello".data] ++ "\n".data)
    ∧ (genericLog happy cfg0 (fun _ => tsW) 0 ["hello".data] " ".data "\n".data true false
        "[INFO]".data "normal".data sW).files = sW.files
    ∧ (genericLog happy cfg0 (fun _ => tsW) 0 ["hello".data] " ".data "\n".data true false
        "[INFO]".data "normal".data sW).logOpen = sW.logOpen
    ∧ (genericLog happy cfg0 (fun _ => tsW) 0 ["hello".data] " ".data "\n".data true false
        "[INFO]".data "normal".data sW).currentDate = sW.currentDate
    ∧ (genericLog happy cfg0 (fun _ => tsW) 0 ["hello".data] " ".data "\n".data true false
        "[INFO]".data "normal".data sW).lastEntryPos = sW.lastEntryPos
    ∧ (genericLog happy cfg0 (fun _ => tsW) 0 ["hello".data] " ".data "\n".data true false
        "[INFO]".data "normal".data sW).freshLine = sW.freshLine
    ∧ (genericLog happy cfg0 (fun _ => tsW) 0 ["hello".data] " ".data "\n".data true false
        "[INFO]".data "normal".data sW).console = sW.console :=
  C7_theorem happy cfg0 (fun _ => tsW) 0 ["hello".data] " ".data "\n".data false
    "[INFO]".data "normal".data sW rfl

/-- Claim C9: with console output disabled (log_to_console false), a call
that supplies an explicit override stream still writes the message to that
stream, while a call without an override writes nothing to the process
standard output: disabling the console suppresses only stdout writes. -/
theorem C9_theorem (o : Oracle) (cfg : Config) (tsAt : Nat → Str) (today : Nat)
    (objects : List Str) (sep e : Str) (flush : Bool) (tag ck : Str) (s : PState)
    (hlc : cfg.log_to_console = false) (hcf : o.consoleFails = false) :
    (genericLog o cfg tsAt today objects sep e true flush tag ck s).override
      = s.override ++ (List.intercalate sep objects ++ e)
    ∧ (genericLog o cfg tsAt today objects sep e false flush tag ck s).console = s.console := by
  constructor
  · unfold genericLog
    rw [genericLogE_override hcf]
    simp [runE]
  · unfold genericLog genericLogE
    dsimp only
    have hcs : consoleStepE o cfg (List.intercalate sep objects ++ e) false flush ck s
        = .ok s := by
      unfold consoleStepE
      rw [if_neg (by simp [hlc])]
    rw [hcs]
    dsimp only
    split
    · exact writeToFile_console o tsAt today _ tag s
    · rfl

/-- Witness for C9: a console-disabled configuration at a concrete state. -/
theorem C9_witness :
    (genericLog happy { cfg0 with log_to_console := false } (fun _ => tsW) 0 ["hi".data]
        " ".data "\n".data true false "[INFO]".data "normal".data sW).override
      = sW.override ++ (List.intercalate " ".data ["hi".data] ++ "\n".data)
    ∧ (genericLog happy { cfg0 with log_to_console := false } (fun _ => tsW) 0 ["hi".data]
        " ".data "\n".data false false "[INFO]".data "normal".data sW).console = sW.console :=
  C9_theorem happy { cfg0 with log_to_console := false } (fun _ => tsW) 0 ["hi".data]
    " ".data "\n".data false "[INFO]".data "normal".data sW rfl rfl

theorem runE_mapE (f : PState → PState) (x : Except PState PState) :
    runE (mapE f x) = f (runE x) := by
  cases x <;> rfl

theorem consoleRender_normal_ne_info {cfg : Config} (hcolors : cfg.colors = defaultColors)
    (m : Str) :
    consoleRender cfg "normal".data m ≠ consoleRender cfg "info".data m := by
  have hn : cfg.getColor "normal".data = "\x1b[37m".data := by
    unfold Config.getColor; rw [hcolors]; rfl
  have hi : cfg.getColor "info".data = "\x1b[34m".data := by
    unfold Config.getColor; rw [hcolors]; rfl
  have hr : cfg.getColor "reset".data = "\x1b[0m".data := by
    unfold Config.getColor; rw [hcolors]; rfl
  unfold consoleRender
  rw [hn, hi, hr]
  by_cases hm : m.head? = some '\r'
  · rw [if_pos hm, if_pos hm]
    intro h
    injection h with _ h2
    rw [List.append_assoc, List.append_assoc] at h2
    have h3 := (List.append_inj h2 (by decide)).1
    exact absurd h3 (by decide)
  · rw [if_neg hm, if_neg hm]
    intro h
    rw [List.append_assoc, List.append_assoc] at h
    have h3 := (List.append_inj h (by decide)).1
    exact absurd h3 (by decide)

theorem genericLog_colors_split {o : Oracle} {cfg : Config} {tsAt : Nat → Str} {today : Nat}
    {objects : List Str} {sep e : Str} {flush : Bool} {tag : Str} (ck : Str) {s : PState}
    (hlc : cfg.log_to_console = true) (hcc : cfg.use_console_colors = true)
    (hlf : cfg.log_to_file = true) (hcf : o.consoleFails = false) :
    genericLog o cfg tsAt today objects sep e false flush tag ck s
      = withConsole (s.console ++ consoleRender cfg ck (List.intercalate sep objects ++ e))
          (writeToFile o tsAt today (List.intercalate sep objects ++ e) tag s) := by
  unfold genericLog
  rw [genericLogE_console_file hlc hcc hlf hcf,
    show ({ s with console := s.console ++ consoleRender cfg ck (List.intercalate sep objects ++ e) } : PState)
      = withConsole (s.console ++ consoleRender cfg ck (List.intercalate sep objects ++ e)) s from rfl,
    writeToFileE_withConsole, runE_mapE]
  rfl

/-- Claim C10: for every argument list, separator and terminator, the
default callable and the info method write identical bytes to the log file
and leave identical channel state (both pass the INFO tag), while with
colors enabled (default table) their console outputs differ: the callable
wraps the message in the "normal" color escape and `info` wraps it in the
"info" color escape. -/
theorem C10_theorem (o : Oracle) (cfg : Config) (tsAt : Nat → Str) (today : Nat)
    (objects : List Str) (sep e : Str) (flush : Bool) (s : PState)
    (hlc : cfg.log_to_console = true) (hcc : cfg.use_console_colors = true)
    (hlf : cfg.log_to_file = true) (hcf : o.consoleFails = false)
    (hcolors : cfg.colors = defaultColors) :
    (Print.call o cfg tsAt today objects sep e false flush s).files
      = (Print.info o cfg tsAt today objects sep e false flush s).files
    ∧ (Print.call o cfg tsAt today objects sep e false flush s).logOpen
      = (Print.info o cfg tsAt today objects sep e false flush s).logOpen
    ∧ (Print.call o cfg tsAt today objects sep e false flush s).currentDate
      = (Print.info o cfg tsAt today objects sep e false flush s).currentDate
    ∧ (Print.call o cfg tsAt today objects sep e false flush s).freshLine
      = (Print.info o cfg tsAt today objects sep e false flush s).freshLine
    ∧ (Print.call o cfg tsAt today objects sep e false flush s).lastEntryPos
      = (Print.info o cfg tsAt today objects sep e false flush s).lastEntryPos
    ∧ (Print.call o cfg tsAt today objects sep e false flush s).override
      = (Print.info o cfg tsAt today objects sep e false flush s).override
    ∧ (Print.call o cfg tsAt today objects sep e false flush s).console
      = s.console ++ consoleRender cfg "normal".data (List.intercalate sep objects ++ e)
    ∧ (Print.info o cfg tsAt today objects sep e false flush s).console
      = s.console ++ consoleRender cfg "info".data (List.intercalate sep objects ++ e)
    ∧ (Print.call o cfg tsAt today objects sep e false flush s).console
      ≠ (Print.info o cfg tsAt today objects sep e false flush s).console := by
  unfold Print.call Print.info
  rw [genericLog_colors_split "normal".data hlc hcc hlf hcf,
    genericLog_colors_split "info".data hlc hcc hlf hcf]
  refine ⟨rfl, rfl, rfl, rfl, rfl, rfl, rfl, rfl, ?_⟩
  intro h
  rw [withConsole_console, withConsole_console] at h
  exact consoleRender_normal_ne_info hcolors _ (List.append_cancel_left h)

/-- Witness for C10: the callable versus the info method at a concrete
state and message. -/
theorem C10_witness :
    (Print.call happy cfg0 (fun _ => tsW) 0 ["m".data] " ".data "\n".data false false sW).files
      = (Print.info happy cfg0 (fun _ => tsW) 0 ["m".data] " ".data "\n".data false false sW).files
    ∧ (Print.call happy cfg0 (fun _ => tsW) 0 ["m".data] " ".data "\n".data false false sW).logOpen
      = (Print.info happy cfg0 (fun _ => tsW) 0 ["m".data] " ".data "\n".data false false sW).logOpen
    ∧ (Print.call happy cfg0 (fun _ => tsW) 0 ["m".data] " ".data "\n".data false false sW).currentDate
      = (Print.info happy cfg0 (fun _ => tsW) 0 ["m".data] " ".data "\n".data false false sW).currentDate
    ∧ (Print.call happy cfg0 (fun _ => tsW) 0 ["m".data] " ".data "\n".data false false sW).freshLine
      = (Print.info happy cfg0 (fun _ => tsW) 0 ["m".data] " ".data "\n".data false false sW).freshLine
    ∧ (Print.call happy cfg0 (fun _ => tsW) 0 ["m".data] " ".data "\n".data false false sW).lastEntryPos
      = (Print.info happy cfg0 (fun _ => tsW) 0 ["m".data] " ".data "\n".data false false sW).lastEntryPos
    ∧ (Print.call happy cfg0 (fun _ => tsW) 0 ["m".data] " ".data "\n".data false false sW).override
      = (Print.info happy cfg0 (fun _ => tsW) 0 ["m".data] " ".data "\n".data false false sW).override
    ∧ (Print.call happy cfg0 (fun _ => tsW) 0 ["m".data] " ".data "\n".data false false sW).console
      = sW.console ++ consoleRender cfg0 "normal".data (List.intercalate " ".data ["m".data] ++ "\n".data)
    ∧ (Print.info happy cfg0 (fun _ => tsW) 0 ["m".data] " ".data "\n".data false false sW).console
      = sW.console ++ consoleRender cfg0 "info".data (List.intercalate " ".data ["m".data] ++ "\n".data)
    ∧ (Print.call happy cfg0 (fun _ => tsW) 0 ["m".data] " ".data "\n".data false false sW).console
      ≠ (Print.info happy cfg0 (fun _ => tsW) 0 ["m".data] " ".data "\n".data false false sW).console :=
  C10_theorem happy cfg0 (fun _ => tsW) 0 ["m".data] " ".data "\n".data false sW
    rfl rfl rfl rfl rfl

/-- Atomic steps of the emit pipeline, for the interleaving model of the
Dispatcher's mutex: message formatting, lock acquire/release, the console
write, and the file-channel operations (the rotation check and the buffer
write, both touching the shared channel), each tagged with the id of the
thread performing it. -/
inductive Act where
  | fmt : Nat → Act
  | acq : Nat → Act
  | rel : Nat → Act
  | con : Nat → Act
  | fio : Nat → Str → Act
  deriving Repr, DecidableEq

/-- Thread that performs the action. -/
def Act.tid : Act → Nat
  | .fmt t => t
  | .acq t => t
  | .rel t => t
  | .con t => t
  | .fio t _ => t

/-- True for the file-channel operations. -/
def Act.isFio : Act → Bool
  | .fio _ _ => true
  | _ => false

/-- True for the lock operations. -/
def Act.isLockOp : Act → Bool
  | .acq _ => true
  | .rel _ => true
  | _ => false

/-- The step trace of one `_generic_log` call by thread `t` whose file write
appends `buf`: the message is formatted BEFORE the lock is taken (the
`message = sep.join(...) + end` line precedes `with self._lock:`); the
console write, the rotation check and the file write happen under the
lock. -/
def emitProg (t : Nat) (buf : Str) : List Act :=
  [Act.fmt t, Act.acq t, Act.con t, Act.fio t [], Act.fio t buf, Act.rel t]

/-- The step trace of one drained line of `_StderrInterceptor.write` (or of
its flush): the Dispatcher's lock is acquired before the file channel is
touched. -/
def stderrLineProg (t : Nat) (line : Str) : List Act :=
  [Act.acq t, Act.fio t [], Act.fio t line, Act.rel t]

/-- A system of threads: the single mutex (holder's id, if held) and each
thread's remaining program. -/
structure Sys where
  lock : Option Nat
  thrs : List (Nat × List Act)

/-- Effect of one action on the mutex: an acquire blocks unless the lock is
free, a release requires holding it, anything else leaves it unchanged. -/
def stepThread (lk : Option Nat) (a : Act) : Option (Option Nat) :=
  match a with
  | .acq t => if lk = none then some (some t) else none
  | .rel t => if lk = some t then some none else none
  | _ => some lk

/-- Executes the next action of the thread at index `n`, if it is not
blocked. -/
def stepAt (s : Sys) (n : Nat) : Option (Sys × Act) :=
  match s.thrs.get? n with
  | none => none
  | some (t, p) =>
    match p with
    | [] => none
    | a :: rest =>
      match stepThread s.lock a with
      | none => none
      | some lk => some ({ lock := lk, thrs := s.thrs.set n (t, rest) }, a)

/-- Runs a schedule (a list of thread indices), collecting the executed
action trace. -/
def run (s : Sys) : List Nat → Option (Sys × List Act)
  | [] => some (s, [])
  | n :: ns =>
    match stepAt s n with
    | none => none
    | some (s1, a) =>
      match run s1 ns with
      | none => none
      | some (fin, tr) => some (fin, a :: tr)

/-- No lock operations and no file-channel operations. -/
def NoLockNoFio (l : List Act) : Prop :=
  ∀ a ∈ l, a.isLockOp = false ∧ a.isFio = false

/-- No lock operations. -/
def NoLock (l : List Act) : Prop :=
  ∀ a ∈ l, a.isLockOp = false

/-- All actions belong to thread `t`. -/
def TidsOf (t : Nat) (p : List Act) : Prop :=
  ∀ a ∈ p, a.tid = t

/-- A single-critical-section program of thread `t`: one acquire/release
pair, every file-channel operation between them. -/
def SingleCS (t : Nat) (p : List Act) : Prop :=
  (∃ pre mid post, p = pre ++ Act.acq t :: (mid ++ Act.rel t :: post)
    ∧ NoLockNoFio pre ∧ NoLock mid ∧ NoLockNoFio post)
  ∧ TidsOf t p

/-- The actions of `p` strictly inside thread `t`'s lock-held region. -/
def lockedRegion (t : Nat) (p : List Act) : List Act :=
  ((p.dropWhile (fun a => !(a == Act.acq t))).drop 1).takeWhile (fun a => !(a == Act.rel t))

/-- The file-channel subtrace. -/
def fioAll (l : List Act) : List Act := l.filter (fun a => a.isFio)

/-- Thread `t`'s file-channel subtrace. -/
def fioOf (t : Nat) (l : List Act) : List Act :=
  l.filter (fun a => a.isFio && a.tid == t)

/-- Every thread's file-channel actions form one contiguous, non-interleaved
block inside the file-channel subtrace. -/
def ContiguousBlocks (tr : List Act) : Prop :=
  ∀ t, ∃ l1 l2, fioAll tr = l1 ++ (fioOf t tr ++ l2)
    ∧ (∀ a ∈ l1, a.tid ≠ t) ∧ (∀ a ∈ l2, a.tid ≠ t)

/-- Claim C8, counterexample: in the step trace of an emit call the message
formatting occurs BEFORE the lock acquire, so the mutex is not held across
the format step, contrary to the claim that the mutex is held across the
entire emit operation including the format. -/
theorem C8_counterexample :
    ¬ (Act.fmt 0 ∈ lockedRegion 0 (emitProg 0 "x".data)) := by
  decide

/-- Phase of a thread's remaining program relative to the lock: not yet
acquired (not the holder), inside its critical section (the holder), or
finished (not the holder). -/
def Phase (lk : Option Nat) (t : Nat) (p : List Act) : Prop :=
  (∃ pre mid post, p = pre ++ Act.acq t :: (mid ++ Act.rel t :: post)
      ∧ NoLockNoFio pre ∧ NoLock mid ∧ NoLockNoFio post ∧ lk ≠ some t)
  ∨ (∃ mid post, p = mid ++ Act.rel t :: post ∧ NoLock mid ∧ NoLockNoFio post ∧ lk = some t)
  ∨ (NoLockNoFio p ∧ lk ≠ some t)

/-- System invariant: thread ids are unique per index and every thread is in
a consistent phase with respect to the lock. -/
def SysInv (s : Sys) : Prop :=
  (∀ m k tp tq, s.thrs.get? m = some tp → s.thrs.get? k = some tq → tp.1 = tq.1 → m = k)
  ∧ (∀ k tp, s.thrs.get? k = some tp → Phase s.lock tp.1 tp.2 ∧ TidsOf tp.1 tp.2)

theorem stepThread_other (lk : Option Nat) {a : Act} (h : a.isLockOp = false) :
    stepThread lk a = some lk := by
  cases a <;> first
    | rfl
    | simp [Act.isLockOp] at h

theorem stepThread_acq {lk lk2 : Option Nat} {u : Nat}
    (h : stepThread lk (Act.acq u) = some lk2) : lk = none ∧ lk2 = some u := by
  simp only [stepThread] at h
  by_cases hc : lk = none
  · rw [if_pos hc] at h
    injection h with h2
    exact ⟨hc, h2.symm⟩
  · rw [if_neg hc] at h
    exact absurd h (by simp)

theorem stepThread_rel {lk lk2 : Option Nat} {u : Nat}
    (h : stepThread lk (Act.rel u) = some lk2) : lk = some u ∧ lk2 = none := by
  simp only [stepThread] at h
  by_cases hc : lk = some u
  · rw [if_pos hc] at h
    injection h with h2
    exact ⟨hc, h2.symm⟩
  · rw [if_neg hc] at h
    exact absurd h (by simp)

theorem stepAt_inv {s : Sys} {n : Nat} {s1 : Sys} {a : Act}
    (h : stepAt s n = some (s1, a)) :
    ∃ t rest, s.thrs.get? n = some (t, a :: rest)
      ∧ stepThread s.lock a = some s1.lock
      ∧ s1.thrs = s.thrs.set n (t, rest) := by
  unfold stepAt at h
  split at h
  · exact absurd h (by simp)
  next t p heq =>
    cases p with
    | nil => exact absurd h (by simp)
    | cons a0 rest =>
      dsimp only at h
      split at h
      · exact absurd h (by simp)
      next lk hlk =>
        injection h with h2
        rw [Prod.mk.injEq] at h2
        obtain ⟨h3, h4⟩ := h2
        subst h4
        exact ⟨t, rest, heq, by rw [← h3]; exact hlk, by rw [← h3]⟩

theorem phase_transfer {lkOld lkNew : Option Nat} {t u : Nat} {q : List Act}
    (hu : u ≠ t) (hph : Phase lkOld u q)
    (hcase : lkNew = lkOld ∨ (lkOld = none ∧ lkNew = some t) ∨ (lkOld = some t ∧ lkNew = none)) :
    Phase lkNew u q := by
  rcases hph with ⟨pre, mid, post, hp, h1, h2, h3, hlk⟩ | ⟨mid, post, hp, h2, h3, hlk⟩ | ⟨h1, hlk⟩
  · refine Or.inl ⟨pre, mid, post, hp, h1, h2, h3, ?_⟩
    rcases hcase with rfl | ⟨hn, rfl⟩ | ⟨hsome, rfl⟩
    · exact hlk
    · intro he; injection he with he2; exact hu he2.symm
    · simp
  · rcases hcase with rfl | ⟨hn, hnew⟩ | ⟨hsome, hnew⟩
    · exact Or.inr (Or.inl ⟨mid, post, hp, h2, h3, hlk⟩)
    · rw [hn] at hlk; exact absurd hlk (by simp)
    · rw [hsome] at hlk
      injection hlk with he2
      exact absurd he2.symm hu
  · refine Or.inr (Or.inr ⟨h1, ?_⟩)
    rcases hcase with rfl | ⟨hn, rfl⟩ | ⟨hsome, rfl⟩
    · exact hlk
    · intro he; injection he with he2; exact hu he2.symm
    · simp

theorem sysInv_step {s : Sys} {n : Nat} {s1 : Sys} {a : Act}
    (h : stepAt s n = some (s1, a)) (hinv : SysInv s) :
    SysInv s1
    ∧ (a.isFio = true → s.lock = some a.tid ∧ s1.lock = s.lock)
    ∧ (∀ u, a = Act.rel u →
        s1.lock = none ∧ ∃ q, s1.thrs.get? n = some (u, q) ∧ NoLockNoFio q) := by
  obtain ⟨t, rest, hget, hstep, hthrs⟩ := stepAt_inv h
  obtain ⟨hinj, hph⟩ := hinv
  obtain ⟨hphase, htids⟩ := hph n (t, a :: rest) hget
  have hatid : a.tid = t := htids a (List.mem_cons_self _ _)
  have htidsrest : TidsOf t rest := fun b hb => htids b (List.mem_cons_of_mem _ hb)
  have hget1 : s1.thrs.get? n = some (t, rest) := by
    rw [hthrs, List.get?_set_eq, hget]; rfl
  have hgetother : ∀ m, m ≠ n → s1.thrs.get? m = s.thrs.get? m := by
    intro m hm
    rw [hthrs]
    exact List.get?_set_ne _ s.thrs (Ne.symm hm)
  have hback : ∀ m tp, s1.thrs.get? m = some tp → ∃ q, s.thrs.get? m = some (tp.1, q) := by
    intro m tp hm
    by_cases hmn : m = n
    · subst hmn
      rw [hget1] at hm
      injection hm with hm2
      exact ⟨a :: rest, by rw [hget, ← hm2]⟩
    · rw [hgetother m hmn] at hm
      exact ⟨tp.2, by rw [hm]⟩
  have hinj1 : ∀ m k tp tq, s1.thrs.get? m = some tp → s1.thrs.get? k = some tq →
      tp.1 = tq.1 → m = k := by
    intro m k tp tq hm hk he
    obtain ⟨q1, h1⟩ := hback m tp hm
    obtain ⟨q2, h2⟩ := hback k tq hk
    exact hinj m k _ _ h1 h2 he
  have hune : ∀ m u q, m ≠ n → s.thrs.get? m = some (u, q) → u ≠ t := by
    intro m u q hm hmq he
    exact hm (hinj m n _ _ hmq hget (by simpa using he))
  have hfinish : (s1.lock = s.lock ∨ (s.lock = none ∧ s1.lock = some t)
        ∨ (s.lock = some t ∧ s1.lock = none)) →
      Phase s1.lock t rest → SysInv s1 := by
    intro hcase hpn
    refine ⟨hinj1, ?_⟩
    intro k tp hk
    by_cases hkn : k = n
    · subst hkn
      rw [hget1] at hk
      injection hk with hk2
      rw [← hk2]
      exact ⟨hpn, htidsrest⟩
    · rw [hgetother k hkn] at hk
      obtain ⟨hpk, htk⟩ := hph k tp hk
      have hu : tp.1 ≠ t := by
        obtain ⟨u, q⟩ := tp
        exact hune k u q hkn hk
      exact ⟨phase_transfer hu hpk hcase, htk⟩
  rcases hphase with ⟨pre, mid, post, hp, hpre, hmid, hpost, hlkne⟩
    | ⟨mid, post, hp, hmid, hpost, hlkeq⟩ | ⟨hnl, hlkne⟩
  · cases pre with
    | nil =>
      simp only [List.nil_append] at hp
      injection hp with ha hrest
      subst ha
      obtain ⟨hnone, hsome⟩ := stepThread_acq hstep
      refine ⟨hfinish (Or.inr (Or.inl ⟨hnone, hsome⟩))
        (Or.inr (Or.inl ⟨mid, post, hrest, hmid, hpost, hsome⟩)), ?_, ?_⟩
      · intro hf; simp [Act.isFio] at hf
      · intro u hu; exact absurd hu (by simp)
    | cons b pre2 =>
      injection hp with ha hrest
      subst ha
      obtain ⟨hbl, hbf⟩ := hpre a (List.mem_cons_self _ _)
      have hsl : s1.lock = s.lock := by
        have h2 := stepThread_other s.lock hbl
        rw [h2] at hstep
        injection hstep with h3
        exact h3.symm
      have hpre2 : NoLockNoFio pre2 := fun c hc => hpre c (List.mem_cons_of_mem _ hc)
      refine ⟨hfinish (Or.inl hsl)
        (Or.inl ⟨pre2, mid, post, hrest, hpre2, hmid, hpost, by rw [hsl]; exact hlkne⟩),
        ?_, ?_⟩
      · intro hf; rw [hf] at hbf; exact absurd hbf (by simp)
      · intro u hu; rw [hu] at hbl; simp [Act.isLockOp] at hbl
  · cases mid with
    | nil =>
      simp only [List.nil_append] at hp
      injection hp with ha hrest
      subst ha
      obtain ⟨hsome, hnone⟩ := stepThread_rel hstep
      refine ⟨hfinish (Or.inr (Or.inr ⟨hsome, hnone⟩))
        (Or.inr (Or.inr ⟨by rw [hrest]; exact hpost, by rw [hnone]; simp⟩)), ?_, ?_⟩
      · intro hf; simp [Act.isFio] at hf
      · intro u hu
        injection hu with hut
        subst hut
        exact ⟨hnone, rest, hget1, by rw [hrest]; exact hpost⟩
    | cons b mid2 =>
      injection hp with ha hrest
      subst ha
      have hbl : a.isLockOp = false := hmid a (List.mem_cons_self _ _)
      have hsl : s1.lock = s.lock := by
        have h2 := stepThread_other s.lock hbl
        rw [h2] at hstep
        injection hstep with h3
        exact h3.symm
      have hmid2 : NoLock mid2 := fun c hc => hmid c (List.mem_cons_of_mem _ hc)
      refine ⟨hfinish (Or.inl hsl)
        (Or.inr (Or.inl ⟨mid2, post, hrest, hmid2, hpost, by rw [hsl]; exact hlkeq⟩)),
        ?_, ?_⟩
      · intro hf
        rw [hatid]
        exact ⟨hlkeq, hsl⟩
      · intro u hu; rw [hu] at hbl; simp [Act.isLockOp] at hbl
  · obtain ⟨hbl, hbf⟩ := hnl a (List.mem_cons_self _ _)
    have hsl : s1.lock = s.lock := by
      have h2 := stepThread_other s.lock hbl
      rw [h2] at hstep
      injection hstep with h3
      exact h3.symm
    have hrest2 : NoLockNoFio rest := fun c hc => hnl c (List.mem_cons_of_mem _ hc)
    refine ⟨hfinish (Or.inl hsl)
      (Or.inr (Or.inr ⟨hrest2, by rw [hsl]; exact hlkne⟩)), ?_, ?_⟩
    · intro hf; rw [hf] at hbf; exact absurd hbf (by simp)
    · intro u hu; rw [hu] at hbl; simp [Act.isLockOp] at hbl

theorem run_thread_filter {sched : List Nat} {s fin : Sys} {tr : List Act}
    (hrun : run s sched = some (fin, tr)) (hinv : SysInv s) :
    ∀ n t p, s.thrs.get? n = some (t, p) →
      (tr.filter (fun a => a.tid == t)) <+: p := by
  induction sched generalizing s tr fin with
  | nil =>
    simp only [run, Option.some.injEq, Prod.mk.injEq] at hrun
    obtain ⟨hfin, htr⟩ := hrun
    intro n t p hget
    rw [← htr]
    exact ⟨p, rfl⟩
  | cons m ms ih =>
    simp only [run] at hrun
    cases hstep : stepAt s m with
    | none => rw [hstep] at hrun; exact absurd hrun (by simp)
    | some pair =>
      obtain ⟨s1, a⟩ := pair
      rw [hstep] at hrun
      dsimp only at hrun
      cases hrun2 : run s1 ms with
      | none => rw [hrun2] at hrun; exact absurd hrun (by simp)
      | some pr =>
        obtain ⟨fin2, tr2⟩ := pr
        rw [hrun2] at hrun
        injection hrun with h2
        rw [Prod.mk.injEq] at h2
        obtain ⟨hfin, htr⟩ := h2
        subst htr
        obtain ⟨hinv1, _, _⟩ := sysInv_step hstep hinv
        obtain ⟨t0, rest0, hget0, _, hthrs0⟩ := stepAt_inv hstep
        have hatid : a.tid = t0 := (hinv.2 m _ hget0).2 a (List.mem_cons_self _ _)
        intro n t p hget
        by_cases hnm : n = m
        · subst hnm
          rw [hget] at hget0
          injection hget0 with hg
          rw [Prod.mk.injEq] at hg
          obtain ⟨hg1, hg2⟩ := hg
          subst hg1
          subst hg2
          have hfil : (List.filter (fun a => a.tid == t) (a :: tr2))
              = a :: List.filter (fun a => a.tid == t) tr2 := by
            simp [List.filter_cons, hatid]
          rw [hfil]
          have hg1' : s1.thrs.get? n = some (t, rest0) := by
            rw [hthrs0, List.get?_set_eq, hget]; rfl
          obtain ⟨suf, hsuf⟩ := ih hrun2 hinv1 n t rest0 hg1'
          exact ⟨suf, by rw [List.cons_append, hsuf]⟩
        · have hne : t ≠ t0 := fun he => hnm (hinv.1 n m _ _ hget hget0 (by simpa using he))
          have hfil : (List.filter (fun a => a.tid == t) (a :: tr2))
              = List.filter (fun a => a.tid == t) tr2 := by
            simp [List.filter_cons, hatid, Ne.symm hne]
          rw [hfil]
          have hg1' : s1.thrs.get? n = some (t, p) := by
            rw [hthrs0, List.get?_set_ne _ s.thrs (Ne.symm hnm), hget]
          exact ih hrun2 hinv1 n t p hg1'

theorem run_grouped {sched : List Nat} {s fin : Sys} {tr : List Act}
    (hrun : run s sched = some (fin, tr)) (hinv : SysInv s) :
    ContiguousBlocks tr
    ∧ (∀ t, s.lock = some t →
        ∃ rest, fioAll tr = fioOf t tr ++ rest ∧ ∀ b ∈ rest, b.tid ≠ t) := by
  induction sched generalizing s tr fin with
  | nil =>
    simp only [run, Option.some.injEq, Prod.mk.injEq] at hrun
    obtain ⟨hfin, htr⟩ := hrun
    subst htr
    constructor
    · intro t; exact ⟨[], [], rfl, by simp, by simp⟩
    · intro t ht; exact ⟨[], rfl, by simp⟩
  | cons m ms ih =>
    simp only [run] at hrun
    cases hstep : stepAt s m with
    | none => rw [hstep] at hrun; exact absurd hrun (by simp)
    | some pair =>
      obtain ⟨s1, a⟩ := pair
      rw [hstep] at hrun
      dsimp only at hrun
      cases hrun2 : run s1 ms with
      | none => rw [hrun2] at hrun; exact absurd hrun (by simp)
      | some pr =>
        obtain ⟨fin2, tr2⟩ := pr
        rw [hrun2] at hrun
        injection hrun with h2
        rw [Prod.mk.injEq] at h2
        obtain ⟨hfin, htr⟩ := h2
        subst htr
        obtain ⟨hinv1, hfio, hrel⟩ := sysInv_step hstep hinv
        obtain ⟨t0, rest0, hget0, hstepthread, hthrs0⟩ := stepAt_inv hstep
        obtain ⟨q1, q2⟩ := ih hrun2 hinv1
        by_cases haf : a.isFio = true
        · obtain ⟨hlockS, hlockEq⟩ := hfio haf
          obtain ⟨rest, hq, hrestne⟩ := q2 a.tid (by rw [hlockEq]; exact hlockS)
          have hfa : fioAll (a :: tr2) = a :: fioAll tr2 := by
            simp [fioAll, List.filter_cons, haf]
          have hfo : fioOf a.tid (a :: tr2) = a :: fioOf a.tid tr2 := by
            simp [fioOf, List.filter_cons, haf]
          constructor
          · intro v
            by_cases hv : v = a.tid
            · subst hv
              refine ⟨[], rest, ?_, by simp, hrestne⟩
              rw [hfa, hfo, hq]
              simp
            · obtain ⟨l1, l2, hdec, hl1, hl2⟩ := q1 v
              have hfov : fioOf v (a :: tr2) = fioOf v tr2 := by
                simp only [fioOf, List.filter_cons]
                rw [if_neg (by simp [haf]; exact fun he => hv he.symm)]
              refine ⟨a :: l1, l2, ?_, ?_, hl2⟩
              · rw [hfa, hdec, hfov]
                simp
              · intro b hb
                rcases List.mem_cons.mp hb with rfl | hb2
                · exact fun he => hv he.symm
                · exact hl1 b hb2
          · intro t ht
            have htv : t = a.tid := by
              rw [ht] at hlockS
              injection hlockS
            subst htv
            refine ⟨rest, ?_, hrestne⟩
            rw [hfa, hfo, hq]
            simp
        · have haf' : a.isFio = false := by
            cases hx : a.isFio
            · rfl
            · exact absurd hx haf
          have hfa : fioAll (a :: tr2) = fioAll tr2 := by
            simp [fioAll, List.filter_cons, haf']
          have hfoAny : ∀ v, fioOf v (a :: tr2) = fioOf v tr2 := by
            intro v
            simp [fioOf, List.filter_cons, haf']
          constructor
          · intro v
            obtain ⟨l1, l2, hdec, hl1, hl2⟩ := q1 v
            exact ⟨l1, l2, by rw [hfa, hfoAny, hdec], hl1, hl2⟩
          · intro t ht
            cases a with
            | fio u pl => simp [Act.isFio] at haf'
            | acq u =>
              obtain ⟨hnone, _⟩ := stepThread_acq hstepthread
              rw [ht] at hnone
              exact absurd hnone (by simp)
            | rel u =>
              obtain ⟨hlock1, q, hgetq, hq⟩ := hrel u rfl
              obtain ⟨hsomeu, _⟩ := stepThread_rel hstepthread
              have htu : t = u := by
                rw [ht] at hsomeu
                injection hsomeu
              subst htu
              have hpref := run_thread_filter hrun2 hinv1 m t q hgetq
              have hempty : fioOf t tr2 = [] := by
                rw [List.eq_nil_iff_forall_not_mem]
                intro b hb
                rw [fioOf, List.mem_filter] at hb
                obtain ⟨hb1, hb2⟩ := hb
                rw [Bool.and_eq_true, beq_iff_eq] at hb2
                have hbmem : b ∈ tr2.filter (fun x => x.tid == t) :=
                  List.mem_filter.mpr ⟨hb1, by simp [hb2.2]⟩
                have hbq : b ∈ q := hpref.subset hbmem
                exact absurd hb2.1 (by rw [(hq b hbq).2]; simp)
              refine ⟨fioAll tr2, ?_, ?_⟩
              · rw [hfa, hfoAny, hempty]
                simp
              · intro b hb he
                have hbf : b ∈ fioOf t tr2 := by
                  rw [fioAll, List.mem_filter] at hb
                  rw [fioOf, List.mem_filter]
                  exact ⟨hb.1, by simp [he, hb.2]⟩
                rw [hempty] at hbf
                simp at hbf
            | fmt u =>
              have hsl : s1.lock = s.lock := by
                have h2 := stepThread_other s.lock (a := Act.fmt u) rfl
                rw [h2] at hstepthread
                injection hstepthread with h3
                exact h3.symm
              obtain ⟨rest, hq, hrestne⟩ := q2 t (by rw [hsl]; exact ht)
              exact ⟨rest, by rw [hfa, hfoAny, hq], hrestne⟩
            | con u =>
              have hsl : s1.lock = s.lock := by
                have h2 := stepThread_other s.lock (a := Act.con u) rfl
                rw [h2] at hstepthread
                injection hstepthread with h3
                exact h3.symm
              obtain ⟨rest, hq, hrestne⟩ := q2 t (by rw [hsl]; exact ht)
              exact ⟨rest, by rw [hfa, hfoAny, hq], hrestne⟩

theorem emitProg_singleCS (t : Nat) (buf : Str) : SingleCS t (emitProg t buf) := by
  refine ⟨⟨[Act.fmt t], [Act.con t, Act.fio t [], Act.fio t buf], [], rfl, ?_, ?_, ?_⟩, ?_⟩
  · intro a ha
    fin_cases ha
    exact ⟨rfl, rfl⟩
  · intro a ha
    fin_cases ha <;> rfl
  · intro a ha
    simp at ha
  · intro a ha
    fin_cases ha <;> rfl

theorem stderrLineProg_singleCS (t : Nat) (line : Str) : SingleCS t (stderrLineProg t line) := by
  refine ⟨⟨[], [Act.fio t [], Act.fio t line], [], rfl, ?_, ?_, ?_⟩, ?_⟩
  · intro a ha
    simp at ha
  · intro a ha
    fin_cases ha <;> rfl
  · intro a ha
    simp at ha
  · intro a ha
    fin_cases ha <;> rfl

theorem emitProg_lockedRegion (t : Nat) (buf : Str) :
    lockedRegion t (emitProg t buf) = [Act.con t, Act.fio t [], Act.fio t buf] := by
  simp [lockedRegion, emitProg, List.dropWhile_cons, List.takeWhile_cons]

/-- Claim C8 (amended): the message formatting of an emit happens BEFORE the
mutex is acquired, while the console write, the rotation check and the file
write are exactly what happens under the mutex; every emit trace and every
error-capture line trace is a single critical section of the Dispatcher's
one mutex containing all its file-channel actions; and for every system of
such threads with distinct ids, starting with the mutex free, every schedule
the lock semantics admits yields a file-channel trace in which each call's
file actions form one contiguous, non-interleaved block. -/
theorem C8_theorem (init : Sys) (sched : List Nat) (fin : Sys) (tr : List Act)
    (hlock : init.lock = none)
    (hinj : ∀ m k tp tq, init.thrs.get? m = some tp → init.thrs.get? k = some tq →
        tp.1 = tq.1 → m = k)
    (hshape : ∀ k tp, init.thrs.get? k = some tp → SingleCS tp.1 tp.2)
    (hrun : run init sched = some (fin, tr)) :
    (∀ t buf, SingleCS t (emitProg t buf))
    ∧ (∀ t line, SingleCS t (stderrLineProg t line))
    ∧ (∀ t buf, lockedRegion t (emitProg t buf) = [Act.con t, Act.fio t [], Act.fio t buf])
    ∧ ContiguousBlocks tr := by
  have hinv : SysInv init := by
    refine ⟨hinj, ?_⟩
    intro k tp hk
    obtain ⟨⟨pre, mid, post, hp, h1, h2, h3⟩, htid⟩ := hshape k tp hk
    exact ⟨Or.inl ⟨pre, mid, post, hp, h1, h2, h3, by rw [hlock]; simp⟩, htid⟩
  exact ⟨emitProg_singleCS, stderrLineProg_singleCS, emitProg_lockedRegion,
    (run_grouped hrun hinv).1⟩

/-- Two concurrent emit calls for the C8 witness. -/
def init0 : Sys :=
  { lock := none, thrs := [(0, emitProg 0 "A".data), (1, emitProg 1 "B".data)] }

/-- An admissible interleaved schedule: both threads format, then each runs
its critical section. -/
def sched0 : List Nat := [0, 1, 0, 0, 0, 0, 0, 1, 1, 1, 1, 1]

/-- Witness for C8: the amended claim at a concrete two-thread system and
an interleaved schedule. -/
theorem C8_witness :
    SingleCS 0 (emitProg 0 "A".data)
    ∧ SingleCS 1 (stderrLineProg 1 "L".data)
    ∧ lockedRegion 0 (emitProg 0 "A".data) = [Act.con 0, Act.fio 0 [], Act.fio 0 "A".data]
    ∧ ContiguousBlocks (((run init0 sched0).map Prod.snd).getD []) := by
  have hinj0 : ∀ m k tp tq, init0.thrs.get? m = some tp → init0.thrs.get? k = some tq →
      tp.1 = tq.1 → m = k := by
    intro m k tp tq hm hk he
    match m, k with
    | 0, 0 => rfl
    | 1, 1 => rfl
    | 0, 1 =>
      injection hm with hm2
      injection hk with hk2
      rw [← hm2, ← hk2] at he
      exact absurd he (by decide)
    | 1, 0 =>
      injection hm with hm2
      injection hk with hk2
      rw [← hm2, ← hk2] at he
      exact absurd he (by decide)
    | m + 2, _ => simp [init0] at hm
    | 0, k + 2 => simp [init0] at hk
    | 1, k + 2 => simp [init0] at hk
  have hshape0 : ∀ k tp, init0.thrs.get? k = some tp → SingleCS tp.1 tp.2 := by
    intro k tp hk
    match k with
    | 0 =>
      injection hk with h2
      rw [← h2]
      exact emitProg_singleCS 0 _
    | 1 =>
      injection hk with h2
      rw [← h2]
      exact emitProg_singleCS 1 _
    | k + 2 => simp [init0] at hk
  obtain ⟨fin, tr, hrun⟩ : ∃ fin tr, run init0 sched0 = some (fin, tr) := ⟨_, _, rfl⟩
  have hthm := C8_theorem init0 sched0 fin tr rfl hinj0 hshape0 hrun
  refine ⟨hthm.1 0 "A".data, hthm.2.1 1 "L".data, hthm.2.2.1 0 "A".data, ?_⟩
  rw [hrun]
  exact hthm.2.2.2
